import Mathlib

/-!
Floating-point primitives of the Curry runtime (`src/runtime/float.c`)

A shallow embedding of the primitives `+.`, `-.`, `*.`, `/.`, `floatFromInt`,
`truncateFloat` and `roundFloat` together with the part of the abstract machine
they run on (stack, heap cursor, forcing of operands), and proofs about them.

The file has three layers.

* `Double`: the C type `double` as IEEE-754 binary64, with the operations the
  primitives apply to it (`+ - * /`, `modf`, the comparisons, the conversions
  from `long` and to `int`).  Everything is computed on integers, so that every
  definition can be evaluated.
* The machine state and the code of each label of `float.c`, one definition per
  C function, under the name the C function has.
* The theorems.
-/

namespace Curry

/-! ## The C type `double` -/

/-- A binary64 datum.  `fin neg m e` denotes `(-1)^neg * m * 2^e`. -/
inductive Double
  | nan
  | inf (neg : Bool)
  | fin (neg : Bool) (m : Nat) (e : Int)
  deriving DecidableEq

namespace Double

/-- The encodings that occur in memory: a 53 bit significand, the exponent
range of binary64, and a significand with its top bit set unless the number is
subnormal (or zero). -/
def IsDouble : Double → Prop
  | nan => True
  | inf _ => True
  | fin _ m e => m < 2 ^ 53 ∧ -1074 ≤ e ∧ e ≤ 971 ∧ (2 ^ 52 ≤ m ∨ e = -1074)

instance (d : Double) : Decidable (IsDouble d) := by
  cases d <;> unfold IsDouble <;> infer_instance

/-- Finite data (neither an infinity nor a NaN). -/
def isFinite : Double → Bool
  | fin _ _ _ => true
  | _ => false

/-- The rational number a finite datum denotes (0 for infinities and NaN). -/
def toRat : Double → ℚ
  | fin neg m e => (if neg then -1 else 1) * (m : ℚ) * (2 : ℚ) ^ e
  | _ => 0

end Double

/-- The integer `n` with the sign bit `neg` applied. -/
def signed (neg : Bool) (n : Nat) : Int := if neg then -(n : Int) else (n : Int)

/-- Helper of `bitLength`: `fuel` bounds the number of halvings. -/
def bitLengthAux : Nat → Nat → Nat
  | 0, _ => 0
  | fuel + 1, n => if n = 0 then 0 else bitLengthAux fuel (n / 2) + 1

/-- Number of binary digits of `n` (0 for 0). -/
def bitLength (n : Nat) : Nat := bitLengthAux n n

namespace Double

/-- Signed zero. -/
def zero (neg : Bool) : Double := fin neg 0 (-1074)

/-- Rounding of the exact value `(-1)^neg * M * 2^E` to binary64, to nearest
with ties to even (the default rounding mode, the one C arithmetic runs in):
`k` low bits are dropped so that 53 bits remain and the exponent does not go
below that of the subnormals, the kept part is incremented when the dropped
part is above one half (or equal to it with an odd kept part), and the result is
brought to the encoding of `IsDouble`; beyond the largest finite number the
result is an infinity. -/
def roundDyadic (neg : Bool) (M : Nat) (E : Int) : Double :=
  if M = 0 then zero neg
  else
    let k : Nat := max (bitLength M - 53) (Int.toNat (-1074 - E))
    let q := M / 2 ^ k
    let r := M % 2 ^ k
    let up : Bool := decide (2 ^ k < 2 * r) || (decide (2 * r = 2 ^ k) && decide (q % 2 = 1))
    let m1 := if up then q + 1 else q
    let e1 : Int := E + (k : Int)
    let m2 := if m1 = 2 ^ 53 then 2 ^ 52 else m1
    let e2 : Int := if m1 = 2 ^ 53 then e1 + 1 else e1
    let j : Nat := min (53 - bitLength m2) (Int.toNat (e2 + 1074))
    if 971 < e2 - (j : Int) then inf neg else fin neg (m2 * 2 ^ j) (e2 - (j : Int))

/-- Rounding of `(-1)^neg * (n / d) * 2^E` (`d ≠ 0`) to binary64: the quotient
is developed to at least 55 bits and the remainder is kept as a sticky bit
below them, which `roundDyadic` then rounds once. -/
def roundRatio (neg : Bool) (n d : Nat) (E : Int) : Double :=
  let s := bitLength d + 55
  let q := n * 2 ^ s / d
  let sticky := if n * 2 ^ s % d = 0 then 0 else 1
  roundDyadic neg (2 * q + sticky) (E - (s : Int) - 1)

/-- A decimal literal of the C source, `n / d` with sign `neg`
(`lit false 39 10` is `3.9`). -/
def lit (neg : Bool) (n d : Nat) : Double := roundRatio neg n d 0

/-- The constant `0.5`. -/
def half : Double := fin false (2 ^ 52) (-53)

/-- The constant `1.0`. -/
def one : Double := fin false (2 ^ 52) (-52)

/-- Unary minus. -/
def neg : Double → Double
  | nan => nan
  | inf s => inf (!s)
  | fin s m e => fin (!s) m e

/-- C `d + e` on doubles. -/
def add : Double → Double → Double
  | nan, _ => nan
  | _, nan => nan
  | inf a, inf b => if a = b then inf a else nan
  | inf a, fin _ _ _ => inf a
  | fin _ _ _, inf b => inf b
  | fin a m e, fin b n f =>
    let E := min e f
    let x : Int := signed a (m * 2 ^ (e - E).toNat)
    let y : Int := signed b (n * 2 ^ (f - E).toNat)
    if x + y = 0 then zero (a && b)
    else roundDyadic (decide (x + y < 0)) (x + y).natAbs E

/-- C `d - e` on doubles. -/
def sub (d e : Double) : Double := add d (neg e)

/-- C `d * e` on doubles. -/
def mul : Double → Double → Double
  | nan, _ => nan
  | _, nan => nan
  | inf a, inf b => inf (xor a b)
  | inf a, fin b n _ => if n = 0 then nan else inf (xor a b)
  | fin a m _, inf b => if m = 0 then nan else inf (xor a b)
  | fin a m e, fin b n f => roundDyadic (xor a b) (m * n) (e + f)

/-- C `d / e` on doubles.  A zero divisor is not a special case of the C
source; the infinities and NaN below are what binary64 division yields. -/
def div : Double → Double → Double
  | nan, _ => nan
  | _, nan => nan
  | inf _, inf _ => nan
  | inf a, fin b _ _ => inf (xor a b)
  | fin a _ _, inf b => zero (xor a b)
  | fin a m e, fin b n f =>
    if n = 0 then (if m = 0 then nan else inf (xor a b))
    else roundRatio (xor a b) m n (e - f)

/-- C `d < e` on doubles. -/
def lt : Double → Double → Bool
  | nan, _ => false
  | _, nan => false
  | inf a, inf b => a && !b
  | inf a, fin _ _ _ => a
  | fin _ _ _, inf b => !b
  | fin a m e, fin b n f =>
    let E := min e f
    decide (signed a (m * 2 ^ (e - E).toNat) < signed b (n * 2 ^ (f - E).toNat))

/-- C `d == e` on doubles. -/
def eq : Double → Double → Bool
  | nan, _ => false
  | _, nan => false
  | inf a, inf b => a == b
  | inf _, fin _ _ _ => false
  | fin _ _ _, inf _ => false
  | fin a m e, fin b n f =>
    let E := min e f
    decide (signed a (m * 2 ^ (e - E).toNat) = signed b (n * 2 ^ (f - E).toNat))

/-- C `modf(d, &ip)`: the pair (returned fractional part, integral part stored
through the pointer); both carry the sign of `d` and both are exact. -/
def modf : Double → Double × Double
  | nan => (nan, nan)
  | inf s => (zero s, inf s)
  | fin s m e =>
    if 0 ≤ e then (zero s, fin s m e)
    else (roundDyadic s (m % 2 ^ (-e).toNat) e, roundDyadic s (m / 2 ^ (-e).toNat) 0)

/-- The integral part of a finite double, toward zero: the value C assigns to
`(int)d` when it fits the type. -/
def truncate? : Double → Option Int
  | fin s m e => some (signed s (if 0 ≤ e then m * 2 ^ e.toNat else m / 2 ^ (-e).toNat))
  | _ => none

/-- C conversion of a `long` to `double`. -/
def ofInt (i : Int) : Double := roundDyadic (decide (i < 0)) i.natAbs 0

end Double

/-! ## The C type `int` -/

/-- Least value of the C type `int` (32 bits, two's complement). -/
def INT_MIN : Int := -2 ^ 31

/-- Greatest value of the C type `int`. -/
def INT_MAX : Int := 2 ^ 31 - 1

/-- The `int` with the same low 32 bits as `x`. -/
def wrapInt (x : Int) : Int := (x + 2 ^ 31) % 2 ^ 32 - 2 ^ 31

/-- The macro `#define odd(n) (n & 0x01)` applied to an `int`: the bitwise and
of the two's complement bit pattern of `n` with 1. -/
def odd (n : Int) : Nat := Int.toNat (n % 2 ^ 32) &&& 0x01

/-! ## Nodes, heap and stack -/

/-- A node reference as it lies on the stack: the address of a heap node, or,
in builds without `ONLY_BOXED_OBJECTS`, an integer carried in the reference. -/
inductive Ref
  | boxed (a : Nat)
  | unboxed (i : Int)
  deriving DecidableEq

/-- A heap node, by the kind its descriptor gives it: a float (`info =
&float_info`, payload `f`), an integer (`info = &int_info`, payload `i.i`, a
`long`), an indirection, an unbound logic variable, an unevaluated
application. -/
inductive Node
  | float (d : Double)
  | int (i : Int)
  | indir (r : Ref)
  | var
  | closure
  deriving DecidableEq

/-- What `config.h` and `heap.h` fix for a build, and what the platform does
where C leaves the conversion `(int)d` undefined. -/
structure Config where
  /-- The preprocessor flag `ONLY_BOXED_OBJECTS`. -/
  ONLY_BOXED_OBJECTS : Bool
  /-- Words of a float node. -/
  float_node_size : Nat
  /-- Words of an integer node. -/
  int_node_size : Nat
  /-- The bits `(int)d` leaves in the register when the integral part of `d`
  does not fit an `int`, or `d` has none. -/
  narrow : Double → Int

/-- The registers and memory of the running goal.  `sp[k]` is
`stack (sp + k)`; `hp` is the bump cursor of the heap and `heap_end` its
limit.  `allocs` and `forced` are not in the C code: they count the executions
of `hp += ...` and list the operands in the order forcing found them
evaluated. -/
structure State where
  sp : Nat
  stack : Nat → Ref
  hp : Nat
  heap_end : Nat
  heap : Nat → Node
  allocs : Nat
  forced : List Ref

/-- The labels of `float.c`. -/
inductive Label
  | ___43__46_
  | ___43__46__1
  | ___45__46_
  | ___45__46__1
  | ___42__46_
  | ___42__46__1
  | ___47__46_
  | ___47__46__1
  | __floatFromInt
  | __truncateFloat
  | __roundFloat
  deriving DecidableEq

/-- How the code of a label ends: `GOTO(l)`, control given up while forcing
an operand (the label `l` is the continuation, to be entered again with the
same stack), `RETURN(r)`, or a state the code generator never produces (an
operand of the wrong shape), for which the C code has no defined behaviour. -/
inductive Outcome
  | goto (l : Label) (s : State)
  | suspend (l : Label) (s : State)
  | ret (r : Ref) (s : State)
  | undefined

/-- Result of the forcing macros: the code goes on in state `s`, or control
leaves the C function. -/
inductive Eval
  | value (s : State)
  | exit (o : Outcome)

/-- The statement `sp[k] = r`. -/
def State.setSlot (s : State) (k : Nat) (r : Ref) : State :=
  { s with stack := Function.update s.stack (s.sp + k) r }

/-- Modelled from the spec: the macro `EVAL_RIGID_FLOAT(l)` of `eval.h`, which
is not among the sources.  It forces the node on top of the stack (§4.3): a
float node is evaluated already and the code goes on; an indirection is
followed, the target replacing `sp[0]`, and the label starts over; an unbound
variable and an unevaluated application give control away (to the scheduler,
to the reduction engine) with the label `l` as continuation and the stack as it
is. -/
def EVAL_RIGID_FLOAT (l : Label) (s : State) : Eval :=
  match s.stack s.sp with
  | .unboxed _ => .exit .undefined
  | .boxed a =>
    match s.heap a with
    | .float _ => .value { s with forced := s.forced ++ [.boxed a] }
    | .indir r => .exit (.goto l (s.setSlot 0 r))
    | .var => .exit (.suspend l s)
    | .closure => .exit (.suspend l s)
    | .int _ => .exit .undefined

/-- Modelled from the spec: the macro `EVAL_RIGID_INT(l)` of `eval.h`, which is
not among the sources.  As `EVAL_RIGID_FLOAT`, for an integer: evaluated are an
integer node and, in builds without `ONLY_BOXED_OBJECTS`, an integer carried in
the reference. -/
def EVAL_RIGID_INT (cfg : Config) (l : Label) (s : State) : Eval :=
  match s.stack s.sp with
  | .unboxed i =>
    if cfg.ONLY_BOXED_OBJECTS then .exit .undefined
    else .value { s with forced := s.forced ++ [.unboxed i] }
  | .boxed a =>
    match s.heap a with
    | .int _ => .value { s with forced := s.forced ++ [.boxed a] }
    | .indir r => .exit (.goto l (s.setSlot 0 r))
    | .var => .exit (.suspend l s)
    | .closure => .exit (.suspend l s)
    | .float _ => .exit .undefined

/-- Modelled from the spec: the macro `get_float_val(d, r->f)` of `heap.h`,
which is not among the sources: the payload of the float node `r`. -/
def get_float_val (s : State) : Ref → Option Double
  | .boxed a =>
    match s.heap a with
    | .float d => some d
    | _ => none
  | .unboxed _ => none

/-- Modelled from the spec: the macro `int_val(r)` of `heap.h`, which is not
among the sources: the payload of an integer, a `long`. -/
def int_val (s : State) : Ref → Option Int
  | .boxed a =>
    match s.heap a with
    | .int i => some i
    | _ => none
  | .unboxed i => some i

/-- Modelled from the spec: the macro `mk_int(i)` of `heap.h`, which is not
among the sources: in builds without `ONLY_BOXED_OBJECTS` the integer is
embedded in the reference (§4.1) and no node is allocated. -/
def mk_int (i : Int) : Ref := .unboxed i

/-- Modelled from the spec: the macro `CHECK_HEAP(n)` of `heap.h`, which is not
among the sources: after it at least `n` words are free above `hp` (§4.1).  The
collector is out of scope; making room is growth of the arena, which keeps every
reference as it is (§3, §9). -/
def CHECK_HEAP (n : Nat) (s : State) : State :=
  if s.hp + n ≤ s.heap_end then s else { s with heap_end := s.hp + n }

/-- The statements `r = (Node *)hp; r->info = ...; r->... = ...; hp += n`,
which write the node `v` at the cursor and move the cursor past it. -/
def State.alloc (s : State) (n : Nat) (v : Node) : Ref × State :=
  (.boxed s.hp,
    { s with heap := Function.update s.heap s.hp v, hp := s.hp + n, allocs := s.allocs + 1 })

/-- The conversion `(int)d`: the integral part of `d` when it fits an `int`,
and otherwise, where C leaves the result undefined, the `int` the platform
produces. -/
def cast_int (cfg : Config) (d : Double) : Int :=
  match d.truncate? with
  | some t => if INT_MIN ≤ t ∧ t ≤ INT_MAX then t else wrapInt (cfg.narrow d)
  | none => wrapInt (cfg.narrow d)

/-! ## The code of `float.c` -/

/-- The text shared by the entry points `___43__46_`, `___45__46_`,
`___42__46_` and `___47__46_` (`self` is the entry point, `next` its private
label):
```
    EVAL_RIGID_FLOAT(self);
    aux   = sp[0];
    sp[0] = sp[1];
    sp[1] = aux;
    GOTO(next);
```
-/
def binary_entry (self next : Label) (s : State) : Outcome :=
  match EVAL_RIGID_FLOAT self s with
  | .exit o => o
  | .value s =>
    let aux := s.stack s.sp
    let s := s.setSlot 0 (s.stack (s.sp + 1))
    let s := s.setSlot 1 aux
    .goto next s

/-- The text shared by the labels `___43__46__1`, `___45__46__1`,
`___42__46__1` and `___47__46__1` (`op` is the C operator of the label):
```
    EVAL_RIGID_FLOAT(self);
    get_float_val(d, sp[1]->f);
    get_float_val(e, sp[0]->f);
    sp += 2;

    CHECK_HEAP(float_node_size);
    r       = (Node *)hp;
    r->info = &float_info;
    put_float_val(r->f, d op e);
    hp += float_node_size;
    RETURN(r);
```
-/
def binary_label (self : Label) (op : Double → Double → Double) (cfg : Config)
    (s : State) : Outcome :=
  match EVAL_RIGID_FLOAT self s with
  | .exit o => o
  | .value s =>
    match get_float_val s (s.stack (s.sp + 1)), get_float_val s (s.stack s.sp) with
    | some d, some e =>
      let s := { s with sp := s.sp + 2 }
      let s := CHECK_HEAP cfg.float_node_size s
      let (r, s) := s.alloc cfg.float_node_size (.float (op d e))
      .ret r s
    | _, _ => .undefined

/-- Entry point of `+.`. -/
def ___43__46_ (s : State) : Outcome :=
  binary_entry .___43__46_ .___43__46__1 s

/-- Private label of `+.`: `put_float_val(r->f, d + e)`. -/
def ___43__46__1 (cfg : Config) (s : State) : Outcome :=
  binary_label .___43__46__1 Double.add cfg s

/-- Entry point of `-.`. -/
def ___45__46_ (s : State) : Outcome :=
  binary_entry .___45__46_ .___45__46__1 s

/-- Private label of `-.`: `put_float_val(r->f, d - e)`. -/
def ___45__46__1 (cfg : Config) (s : State) : Outcome :=
  binary_label .___45__46__1 Double.sub cfg s

/-- Entry point of `*.`. -/
def ___42__46_ (s : State) : Outcome :=
  binary_entry .___42__46_ .___42__46__1 s

/-- Private label of `*.`: `put_float_val(r->f, d * e)`. -/
def ___42__46__1 (cfg : Config) (s : State) : Outcome :=
  binary_label .___42__46__1 Double.mul cfg s

/-- Entry point of `/.`. -/
def ___47__46_ (s : State) : Outcome :=
  binary_entry .___47__46_ .___47__46__1 s

/-- Private label of `/.`: `put_float_val(r->f, d / e)`. -/
def ___47__46__1 (cfg : Config) (s : State) : Outcome :=
  binary_label .___47__46__1 Double.div cfg s

/-- The function `__floatFromInt`: the `long` payload of the operand is stored
into the `double` field of a fresh float node, which converts it. -/
def __floatFromInt (cfg : Config) (s : State) : Outcome :=
  match EVAL_RIGID_INT cfg .__floatFromInt s with
  | .exit o => o
  | .value s =>
    match int_val s (s.stack s.sp) with
    | some i =>
      let s := { s with sp := s.sp + 1 }
      let s := CHECK_HEAP cfg.float_node_size s
      let (r, s) := s.alloc cfg.float_node_size (.float (Double.ofInt i))
      .ret r s
    | none => .undefined

/-- The end shared by `__truncateFloat` and `__roundFloat`, which returns the
integer `(int)d`:
```
    [if ONLY_BOXED_OBJECTS]
    CHECK_HEAP(int_node_size);
    r       = (Node *)hp;
    r->info = &int_info;
    r->i.i  = (int)d;
    hp     += int_node_size;
    [else]
    r = mk_int((int)d);
    [endif]
    RETURN(r);
```
-/
def return_int (cfg : Config) (d : Double) (s : State) : Outcome :=
  if cfg.ONLY_BOXED_OBJECTS then
    let s := CHECK_HEAP cfg.int_node_size s
    let (r, s) := s.alloc cfg.int_node_size (.int (cast_int cfg d))
    .ret r s
  else
    .ret (mk_int (cast_int cfg d)) s

/-- The function `__truncateFloat`. -/
def __truncateFloat (cfg : Config) (s : State) : Outcome :=
  match EVAL_RIGID_FLOAT .__truncateFloat s with
  | .exit o => o
  | .value s =>
    match get_float_val s (s.stack s.sp) with
    | some d =>
      let s := { s with sp := s.sp + 1 }
      return_int cfg d s
    | none => .undefined

/-- The arithmetic of `__roundFloat`, from `frac = modf(d, &d)` to the last
assignment to `d`:
```
    frac = modf(d, &d);
    if ( frac > 0.5 || (frac == 0.5 && odd((int)d)) )
        d += 1.0;
    else if ( frac < -0.5 || (frac == -0.5 && odd((int)d)) )
        d -= 1.0;
```
-/
def round_adjust (cfg : Config) (d : Double) : Double :=
  let (frac, d) := Double.modf d
  if Double.lt Double.half frac || (Double.eq frac Double.half && odd (cast_int cfg d) != 0) then
    Double.add d Double.one
  else if Double.lt frac (Double.neg Double.half)
      || (Double.eq frac (Double.neg Double.half) && odd (cast_int cfg d) != 0) then
    Double.sub d Double.one
  else d

/-- The function `__roundFloat`. -/
def __roundFloat (cfg : Config) (s : State) : Outcome :=
  match EVAL_RIGID_FLOAT .__roundFloat s with
  | .exit o => o
  | .value s =>
    match get_float_val s (s.stack s.sp) with
    | some d =>
      let s := { s with sp := s.sp + 1 }
      let d := round_adjust cfg d
      return_int cfg d s
    | none => .undefined

/-- The code behind each label. -/
def step (cfg : Config) : Label → State → Outcome
  | .___43__46_ => ___43__46_
  | .___43__46__1 => ___43__46__1 cfg
  | .___45__46_ => ___45__46_
  | .___45__46__1 => ___45__46__1 cfg
  | .___42__46_ => ___42__46_
  | .___42__46__1 => ___42__46__1 cfg
  | .___47__46_ => ___47__46_
  | .___47__46__1 => ___47__46__1 cfg
  | .__floatFromInt => __floatFromInt cfg
  | .__truncateFloat => __truncateFloat cfg
  | .__roundFloat => __roundFloat cfg

/-- Execution from a label until `RETURN`, for at most `fuel` entries into a
label.  `GOTO` enters the next label.  When forcing gives control away, the
rest of the system runs: `env` says what it does to the nodes of the heap (bind
variables, evaluate applications) before the continuation label is entered
again with the stack it was saved with.  The result is the returned reference
and the state at `RETURN`, or `none` when the fuel is used up or the code met
an operand of the wrong shape. -/
def run (cfg : Config) (env : Nat → (Nat → Node) → (Nat → Node)) :
    Nat → Label → State → Option (Ref × State)
  | 0, _, _ => none
  | fuel + 1, l, s =>
    match step cfg l s with
    | .goto l1 s1 => run cfg env fuel l1 s1
    | .suspend l1 s1 => run cfg env fuel l1 { s1 with heap := env fuel s1.heap }
    | .ret r s1 => some (r, s1)
    | .undefined => none

/-! ## What the conversions are to compute -/

/-- The integer `n` is the integral part of `q`, toward zero: `|n| ≤ |q| < |n| + 1`, and `n`
has the sign of `q` unless it is zero. -/
def IsIntegralPart (q : ℚ) (n : Int) : Prop :=
  |(n : ℚ)| ≤ |q| ∧ |q| < |(n : ℚ)| + 1 ∧ (n ≠ 0 → (n < 0 ↔ q < 0))

/-- The integer `n` is `q` rounded half to even: the integer nearest to `q`, and the even
one of the two nearest when `q` lies halfway between them. -/
def IsRoundHalfEven (q : ℚ) (n : Int) : Prop :=
  |q - (n : ℚ)| < 1 / 2 ∨ (|q - (n : ℚ)| = 1 / 2 ∧ Even n)

/-- The integer a returned reference stands for, if any. -/
def resultInt (o : Option (Ref × State)) : Option Int :=
  o.bind fun p => int_val p.2 p.1

/-- The double a returned reference stands for, if any. -/
def resultFloat (o : Option (Ref × State)) : Option Double :=
  o.bind fun p => get_float_val p.2 p.1

/-- A build with `ONLY_BOXED_OBJECTS`, three-word float nodes and two-word integer nodes,
on a platform whose conversion yields `INT_MIN` for a double that does not fit (the
"integer indefinite" value of x86). -/
def boxedBuild : Config :=
  { ONLY_BOXED_OBJECTS := true, float_node_size := 3, int_node_size := 2,
    narrow := fun _ => INT_MIN }

/-- The same platform, built without `ONLY_BOXED_OBJECTS`. -/
def unboxedBuild : Config :=
  { ONLY_BOXED_OBJECTS := false, float_node_size := 3, int_node_size := 2,
    narrow := fun _ => INT_MIN }

/-- The state in which the stack holds the references `rs`, top first, and the heap holds
the nodes `ns` at the addresses `0, 1, ...`, the cursor standing right behind them. -/
def State.init (rs : List Ref) (ns : List Node) : State :=
  { sp := 0, stack := fun k => rs.getD k (.boxed 0), hp := ns.length, heap_end := ns.length,
    heap := fun a => ns.getD a .var, allocs := 0, forced := [] }

/-- An environment that leaves the heap alone. -/
def idle : Nat → (Nat → Node) → (Nat → Node) := fun _ h => h

theorem bitLengthAux_le_iff (fuel : Nat) : ∀ n k : Nat, n ≤ fuel →
    (bitLengthAux fuel n ≤ k ↔ n < 2 ^ k) := by
  induction fuel with
  | zero =>
    intro n k h
    have hn : n = 0 := by omega
    subst hn
    simp [bitLengthAux]
  | succ fuel ih =>
    intro n k h
    unfold bitLengthAux
    by_cases hn : n = 0
    · subst hn; simp
    · rw [if_neg hn]
      cases k with
      | zero => simp; omega
      | succ k =>
        have h2 : n / 2 ≤ fuel := by omega
        rw [Nat.add_le_add_iff_right, ih (n / 2) k h2, pow_succ]
        omega

theorem bitLength_le_iff (n k : Nat) : bitLength n ≤ k ↔ n < 2 ^ k :=
  bitLengthAux_le_iff n n k (le_refl n)

theorem lt_two_pow_bitLength (n : Nat) : n < 2 ^ bitLength n :=
  (bitLength_le_iff n _).1 (le_refl _)

theorem two_pow_le_of_lt_bitLength (n k : Nat) (h : k < bitLength n) : 2 ^ k ≤ n := by
  by_contra hc
  have := (bitLength_le_iff n k).2 (by omega)
  omega

namespace Double

theorem roundDyadic_exact (neg : Bool) (M : Nat) (E : Int) (m t : Nat)
    (hM : M = m * 2 ^ t) (hm : m < 2 ^ 53) (hlo : -1074 ≤ E + t) (hhi : E + t ≤ 971) :
    ∃ m1 e1, roundDyadic neg M E = fin neg m1 e1 ∧ IsDouble (fin neg m1 e1) ∧
      (m1 : ℚ) * (2 : ℚ) ^ e1 = (M : ℚ) * (2 : ℚ) ^ E := by
  by_cases h0 : M = 0
  · refine ⟨0, -1074, ?_, ?_, ?_⟩
    · simp [roundDyadic, h0, zero]
    · simp [IsDouble]
    · simp [h0]
  · obtain ⟨k, hk⟩ : ∃ k, k = max (bitLength M - 53) (Int.toNat (-1074 - E)) := ⟨_, rfl⟩
    have hpos : ∀ n : Nat, 0 < 2 ^ n := fun n => pow_pos (by norm_num) n
    have hMlt : M < 2 ^ (53 + t) := by
      rw [hM, pow_add]
      exact Nat.mul_lt_mul_of_lt_of_le hm (le_refl _) (hpos t)
    have ha : bitLength M - 53 ≤ t := by
      have := (bitLength_le_iff M (53 + t)).2 hMlt
      omega
    have hkt : k ≤ t := by
      rw [hk]; exact max_le ha (by omega)
    have hMk : M = m * 2 ^ (t - k) * 2 ^ k := by
      rw [hM, mul_assoc, ← pow_add, Nat.sub_add_cancel hkt]
    have hr : M % 2 ^ k = 0 := by
      rw [hMk]; exact Nat.mul_mod_left _ _
    have hq : M / 2 ^ k < 2 ^ 53 := by
      rw [Nat.div_lt_iff_lt_mul (hpos k), ← pow_add]
      have hb : bitLength M ≤ 53 + k := by
        have : bitLength M - 53 ≤ k := by rw [hk]; exact le_max_left _ _
        omega
      exact (bitLength_le_iff M _).1 hb
    have hqk : M / 2 ^ k * 2 ^ k = M := by
      have := Nat.div_add_mod M (2 ^ k)
      rw [hr] at this
      rw [mul_comm]; simpa using this
    have hq0 : M / 2 ^ k ≠ 0 := by
      intro h
      rw [h] at hqk
      omega
    have hek : -1074 ≤ E + k := by
      have : Int.toNat (-1074 - E) ≤ k := by rw [hk]; exact le_max_right _ _
      omega
    obtain ⟨j, hj⟩ : ∃ j, j = min (53 - bitLength (M / 2 ^ k)) (Int.toNat (E + k + 1074)) :=
      ⟨_, rfl⟩
    have hj1 : j ≤ 53 - bitLength (M / 2 ^ k) := by rw [hj]; exact min_le_left _ _
    have hj2 : (j : Int) ≤ E + k + 1074 := by
      have : j ≤ Int.toNat (E + k + 1074) := by rw [hj]; exact min_le_right _ _
      omega
    have hbl : bitLength (M / 2 ^ k) ≤ 53 := (bitLength_le_iff _ _).2 hq
    have hbl0 : 0 < bitLength (M / 2 ^ k) := by
      by_contra hc
      have := (bitLength_le_iff (M / 2 ^ k) 0).1 (by omega)
      simp at this
      exact hq0 this
    have hmj : M / 2 ^ k * 2 ^ j < 2 ^ 53 := by
      have h1 : M / 2 ^ k < 2 ^ bitLength (M / 2 ^ k) := lt_two_pow_bitLength _
      have h2 : M / 2 ^ k * 2 ^ j < 2 ^ bitLength (M / 2 ^ k) * 2 ^ j :=
        Nat.mul_lt_mul_of_lt_of_le h1 (le_refl _) (hpos j)
      rw [← pow_add] at h2
      exact lt_of_lt_of_le h2 (Nat.pow_le_pow_right (by norm_num) (by omega))
    -- the exponent stays in range
    have hexp : E + k - j ≤ 971 := by
      by_contra hc
      -- then j = 53 - bitLength q, so q * 2 ^ j ≥ 2 ^ 52, while the value is below 2 ^ 1024
      have hjeq : j = 53 - bitLength (M / 2 ^ k) := by
        rcases Nat.le_total (53 - bitLength (M / 2 ^ k)) (Int.toNat (E + k + 1074)) with h | h
        · rw [hj]; exact min_eq_left h
        · have : j = Int.toNat (E + k + 1074) := by rw [hj]; exact min_eq_right h
          omega
      have hge : 2 ^ (bitLength (M / 2 ^ k) - 1) ≤ M / 2 ^ k :=
        two_pow_le_of_lt_bitLength _ _ (by omega)
      -- m * 2 ^ (t - k) = q
      have hqm : M / 2 ^ k = m * 2 ^ (t - k) := by
        have := hqk
        rw [hMk] at this
        have h2 := hMk
        rw [← hqk] at h2
        exact Nat.eq_of_mul_eq_mul_right (hpos k) h2
      -- 2 ^ (bl - 1) ≤ m * 2 ^ (t - k) < 2 ^ (53 + t - k)
      have hlt : m * 2 ^ (t - k) < 2 ^ (53 + (t - k)) := by
        rw [pow_add]
        exact Nat.mul_lt_mul_of_lt_of_le hm (le_refl _) (hpos _)
      have : 2 ^ (bitLength (M / 2 ^ k) - 1) < 2 ^ (53 + (t - k)) := by
        exact lt_of_le_of_lt (le_trans hge (le_of_eq hqm)) hlt
      have := (Nat.pow_lt_pow_iff_right (by norm_num : 1 < 2)).1 this
      omega
    refine ⟨M / 2 ^ k * 2 ^ j, E + k - j, ?_, ?_, ?_⟩
    · unfold roundDyadic
      have hup : (decide (2 ^ k < 2 * (M % 2 ^ k))
          || (decide (2 * (M % 2 ^ k) = 2 ^ k) && decide (M / 2 ^ k % 2 = 1))) = false := by
        have := hpos k
        rw [hr]
        simp
        omega
      have hne : M / 2 ^ k ≠ 2 ^ 53 := by omega
      simp only [if_neg h0, ← hk, hup, Bool.false_eq_true, if_false, if_neg hne, ← hj,
        if_neg (not_lt.2 hexp)]
    · refine ⟨hmj, by omega, hexp, ?_⟩
      rcases Nat.le_total (53 - bitLength (M / 2 ^ k)) (Int.toNat (E + k + 1074)) with h | h
      · left
        have hjeq : j = 53 - bitLength (M / 2 ^ k) := by rw [hj]; exact min_eq_left h
        have hge : 2 ^ (bitLength (M / 2 ^ k) - 1) ≤ M / 2 ^ k :=
          two_pow_le_of_lt_bitLength _ _ (by omega)
        calc 2 ^ 52 = 2 ^ (bitLength (M / 2 ^ k) - 1) * 2 ^ j := by
              rw [← pow_add]; congr 1; omega
          _ ≤ M / 2 ^ k * 2 ^ j := Nat.mul_le_mul_right _ hge
      · right
        have : j = Int.toNat (E + k + 1074) := by rw [hj]; exact min_eq_right h
        omega
    · have h2 : (2 : ℚ) ≠ 0 := by norm_num
      have hMq : (M : ℚ) = ((M / 2 ^ k : Nat) : ℚ) * (2 : ℚ) ^ k := by
        conv_lhs => rw [← hqk]
        push_cast
        ring
      rw [hMq]
      push_cast
      rw [show E + (k : Int) - (j : Int) = (k : Int) + E - j by ring, zpow_sub₀ h2, zpow_add₀ h2,
        zpow_natCast, zpow_natCast]
      field_simp
      ring

end Double

theorem signed_cast (s : Bool) (n : Nat) :
    ((signed s n : Int) : ℚ) = (if s then -1 else 1) * (n : ℚ) := by
  cases s <;> simp [signed]

theorem sign_mul_natAbs (z : Int) :
    (if decide (z < 0) = true then (-1 : ℚ) else 1) * (z.natAbs : ℚ) = (z : ℚ) := by
  by_cases hneg : z < 0
  · simp only [hneg, decide_True, if_true]
    rw [Nat.cast_natAbs, abs_of_neg hneg]
    push_cast
    ring
  · simp only [hneg, decide_False, Bool.false_eq_true, if_false]
    rw [Nat.cast_natAbs, abs_of_nonneg (not_lt.1 hneg)]
    ring

namespace Double

theorem two_zpow_pos (e : Int) : (0 : ℚ) < (2 : ℚ) ^ e := zpow_pos (by norm_num) e

theorem toRat_aligned (a : Bool) (m : Nat) (e E : Int) (h : E ≤ e) :
    toRat (fin a m e) = ((signed a (m * 2 ^ (e - E).toNat) : Int) : ℚ) * (2 : ℚ) ^ E := by
  have h2 : (2 : ℚ) ≠ 0 := by norm_num
  have he : (2 : ℚ) ^ e = (2 : ℚ) ^ (e - E).toNat * (2 : ℚ) ^ E := by
    rw [← zpow_natCast, ← zpow_add₀ h2]
    congr 1
    omega
  rw [signed_cast]
  unfold toRat
  push_cast
  rw [he]
  ring

theorem lt_fin_iff (a : Bool) (m : Nat) (e : Int) (b : Bool) (n : Nat) (f : Int) :
    lt (fin a m e) (fin b n f) = true ↔ toRat (fin a m e) < toRat (fin b n f) := by
  rw [toRat_aligned a m e (min e f) (min_le_left _ _),
    toRat_aligned b n f (min e f) (min_le_right _ _)]
  rw [mul_lt_mul_right (two_zpow_pos _)]
  simp only [lt, decide_eq_true_eq]
  exact Int.cast_lt.symm

theorem eq_fin_iff (a : Bool) (m : Nat) (e : Int) (b : Bool) (n : Nat) (f : Int) :
    eq (fin a m e) (fin b n f) = true ↔ toRat (fin a m e) = toRat (fin b n f) := by
  rw [toRat_aligned a m e (min e f) (min_le_left _ _),
    toRat_aligned b n f (min e f) (min_le_right _ _)]
  rw [mul_left_inj' (ne_of_gt (two_zpow_pos _))]
  simp only [eq, decide_eq_true_eq]
  exact Int.cast_inj.symm

theorem toRat_half : toRat half = 1 / 2 := by
  unfold half toRat
  norm_num [zpow_neg]

theorem toRat_one : toRat one = 1 := by
  unfold one toRat
  norm_num [zpow_neg]

theorem toRat_neg (d : Double) : toRat (neg d) = - toRat d := by
  cases d with
  | nan => simp [neg, toRat]
  | inf s => simp [neg, toRat]
  | fin s m e => cases s <;> simp [neg, toRat]

/-- For a negative exponent the value splits into the quotient and the remainder of the
significand by `2 ^ (-e)`. -/
theorem split_value (m : Nat) (e : Int) (he : e < 0) :
    (m : ℚ) * (2 : ℚ) ^ e
      = ((m / 2 ^ (-e).toNat : Nat) : ℚ) + ((m % 2 ^ (-e).toNat : Nat) : ℚ) * (2 : ℚ) ^ e := by
  have h2 : (2 : ℚ) ≠ 0 := by norm_num
  have hk : ((2 : ℚ) ^ (-e).toNat) * (2 : ℚ) ^ e = 1 := by
    rw [← zpow_natCast, ← zpow_add₀ h2]
    have : (((-e).toNat : Int)) + e = 0 := by omega
    rw [this, zpow_zero]
  have hm : (m : ℚ) = ((2 ^ (-e).toNat * (m / 2 ^ (-e).toNat) + m % 2 ^ (-e).toNat : Nat) : ℚ) := by
    rw [Nat.div_add_mod]
  conv_lhs => rw [hm]
  push_cast
  calc ((2 : ℚ) ^ (-e).toNat * ((m / 2 ^ (-e).toNat : Nat) : ℚ) + ((m % 2 ^ (-e).toNat : Nat) : ℚ))
        * (2 : ℚ) ^ e
      = ((m / 2 ^ (-e).toNat : Nat) : ℚ) * ((2 : ℚ) ^ (-e).toNat * (2 : ℚ) ^ e)
        + ((m % 2 ^ (-e).toNat : Nat) : ℚ) * (2 : ℚ) ^ e := by ring
    _ = _ := by rw [hk, mul_one]

theorem rem_value_lt_one (m : Nat) (e : Int) (he : e < 0) :
    ((m % 2 ^ (-e).toNat : Nat) : ℚ) * (2 : ℚ) ^ e < 1 := by
  have h2 : (2 : ℚ) ≠ 0 := by norm_num
  have hk : ((2 : ℚ) ^ (-e).toNat) * (2 : ℚ) ^ e = 1 := by
    rw [← zpow_natCast, ← zpow_add₀ h2]
    have : (((-e).toNat : Int)) + e = 0 := by omega
    rw [this, zpow_zero]
  have hlt : ((m % 2 ^ (-e).toNat : Nat) : ℚ) < (2 : ℚ) ^ (-e).toNat := by
    have : m % 2 ^ (-e).toNat < 2 ^ (-e).toNat := Nat.mod_lt _ (pow_pos (by norm_num) _)
    exact_mod_cast this
  calc ((m % 2 ^ (-e).toNat : Nat) : ℚ) * (2 : ℚ) ^ e
      < (2 : ℚ) ^ (-e).toNat * (2 : ℚ) ^ e := mul_lt_mul_of_pos_right hlt (two_zpow_pos e)
    _ = 1 := hk

/-- The integral part `truncate?` computes, and what is left of the value. -/
theorem truncate?_fin (s : Bool) (m : Nat) (e : Int) :
    ∃ N : Nat, ∃ φ : ℚ, truncate? (fin s m e) = some (signed s N) ∧
      (m : ℚ) * (2 : ℚ) ^ e = (N : ℚ) + φ ∧ 0 ≤ φ ∧ φ < 1 ∧
      N = (if 0 ≤ e then m * 2 ^ e.toNat else m / 2 ^ (-e).toNat) ∧
      φ = (if 0 ≤ e then 0 else ((m % 2 ^ (-e).toNat : Nat) : ℚ) * (2 : ℚ) ^ e) := by
  by_cases he : 0 ≤ e
  · refine ⟨m * 2 ^ e.toNat, 0, ?_, ?_, le_refl _, by norm_num, by simp [he], by simp [he]⟩
    · simp [truncate?, he]
    · push_cast
      rw [← zpow_natCast, Int.toNat_of_nonneg he, add_zero]
  · have he' : e < 0 := by omega
    refine ⟨m / 2 ^ (-e).toNat, ((m % 2 ^ (-e).toNat : Nat) : ℚ) * (2 : ℚ) ^ e, ?_, ?_, ?_, ?_,
      by simp [he], by simp [he]⟩
    · simp [truncate?, he]
    · exact split_value m e he'
    · exact mul_nonneg (Nat.cast_nonneg _) (le_of_lt (two_zpow_pos e))
    · exact rem_value_lt_one m e he'

theorem toRat_fin (s : Bool) (m : Nat) (e : Int) :
    toRat (fin s m e) = (if s then -1 else 1) * ((m : ℚ) * (2 : ℚ) ^ e) := by
  unfold toRat; ring

/-- What `modf` returns on a finite double: both parts are doubles with the sign bit of the
argument, the integral part denotes the integer `truncate?` gives, and the fractional part
denotes the rest. -/
theorem modf_fin (s : Bool) (m : Nat) (e : Int) (hd : IsDouble (fin s m e)) :
    ∃ N : Nat, ∃ φ : ℚ, ∃ mf ef mi ei,
      modf (fin s m e) = (fin s mf ef, fin s mi ei) ∧
      IsDouble (fin s mf ef) ∧ IsDouble (fin s mi ei) ∧
      truncate? (fin s m e) = some (signed s N) ∧
      (m : ℚ) * (2 : ℚ) ^ e = (N : ℚ) + φ ∧ 0 ≤ φ ∧ φ < 1 ∧
      (mi : ℚ) * (2 : ℚ) ^ ei = (N : ℚ) ∧ (mf : ℚ) * (2 : ℚ) ^ ef = φ := by
  obtain ⟨N, φ, hT, hval, h0, h1, hN, hφ⟩ := truncate?_fin s m e
  obtain ⟨hm, hlo, hhi, hnorm⟩ := hd
  by_cases he : 0 ≤ e
  · refine ⟨N, φ, 0, -1074, m, e, ?_, ?_, ⟨hm, hlo, hhi, hnorm⟩, hT, hval, h0, h1, ?_, ?_⟩
    · simp [modf, he, zero]
    · simp [IsDouble]
    · rw [hval]; simp [hφ, he]
    · simp [hφ, he]
  · have he' : e < 0 := by omega
    have hmod : m % 2 ^ (-e).toNat < 2 ^ 53 :=
      lt_of_le_of_lt (Nat.mod_le _ _) hm
    have hdiv : m / 2 ^ (-e).toNat < 2 ^ 53 :=
      lt_of_le_of_lt (Nat.div_le_self _ _) hm
    obtain ⟨mf, ef, hf1, hf2, hf3⟩ := roundDyadic_exact s (m % 2 ^ (-e).toNat) e
      (m % 2 ^ (-e).toNat) 0 (by simp) hmod (by simpa using hlo) (by simpa using hhi)
    obtain ⟨mi, ei, hi1, hi2, hi3⟩ := roundDyadic_exact s (m / 2 ^ (-e).toNat) 0
      (m / 2 ^ (-e).toNat) 0 (by simp) hdiv (by norm_num) (by norm_num)
    refine ⟨N, φ, mf, ef, mi, ei, ?_, hf2, hi2, hT, hval, h0, h1, ?_, ?_⟩
    · simp [modf, he, hf1, hi1]
    · rw [hi3, hN]; simp [he]
    · rw [hf3, hφ]; simp [he]

/-- An integer that is the value of an aligned significand at a non-positive exponent. -/
theorem aligned_int (X A : Int) (E : Int) (hE : E ≤ 0)
    (h : (X : ℚ) * (2 : ℚ) ^ E = (A : ℚ)) : X = A * 2 ^ (-E).toNat := by
  have h2 : (2 : ℚ) ≠ 0 := by norm_num
  have hk : (2 : ℚ) ^ E * ((2 : ℚ) ^ (-E).toNat) = 1 := by
    rw [← zpow_natCast, ← zpow_add₀ h2]
    have : E + (((-E).toNat : Int)) = 0 := by omega
    rw [this, zpow_zero]
  have : (X : ℚ) = ((A * 2 ^ (-E).toNat : Int) : ℚ) := by
    push_cast
    rw [← h, mul_assoc, hk, mul_one]
  exact_mod_cast this

/-- The sum of two doubles that denote integers is exact as long as it has at most 53
bits. -/
theorem add_int_exact (a : Bool) (m : Nat) (e : Int) (b : Bool) (n : Nat) (f : Int)
    (A B : Int) (hA : toRat (fin a m e) = (A : ℚ)) (hB : toRat (fin b n f) = (B : ℚ))
    (hE : min e f ≤ 0) (hbits : (A + B).natAbs < 2 ^ 53) :
    ∃ c m1 e1, add (fin a m e) (fin b n f) = fin c m1 e1 ∧ IsDouble (fin c m1 e1) ∧
      toRat (fin c m1 e1) = ((A + B : Int) : ℚ) := by
  have h2 : (2 : ℚ) ≠ 0 := by norm_num
  obtain ⟨E, hEdef⟩ : ∃ E, E = min e f := ⟨_, rfl⟩
  rw [← hEdef] at hE
  obtain ⟨X, hX⟩ : ∃ X, X = signed a (m * 2 ^ (e - E).toNat) := ⟨_, rfl⟩
  obtain ⟨Y, hY⟩ : ∃ Y, Y = signed b (n * 2 ^ (f - E).toNat) := ⟨_, rfl⟩
  have hXA : X = A * 2 ^ (-E).toNat := by
    apply aligned_int X A E hE
    rw [hX, ← toRat_aligned a m e E (by rw [hEdef]; exact min_le_left _ _), hA]
  have hYB : Y = B * 2 ^ (-E).toNat := by
    apply aligned_int Y B E hE
    rw [hY, ← toRat_aligned b n f E (by rw [hEdef]; exact min_le_right _ _), hB]
  have hsum : X + Y = (A + B) * 2 ^ (-E).toNat := by rw [hXA, hYB]; ring
  have hpow : (0 : Int) < 2 ^ (-E).toNat := pow_pos (by norm_num) _
  have hadd : add (fin a m e) (fin b n f)
      = if X + Y = 0 then zero (a && b) else roundDyadic (decide (X + Y < 0)) (X + Y).natAbs E := by
    simp only [add, ← hEdef, ← hX, ← hY]
  by_cases h0 : X + Y = 0
  · have hAB : A + B = 0 := by
      rw [hsum] at h0
      rcases mul_eq_zero.1 h0 with h | h
      · exact h
      · omega
    refine ⟨a && b, 0, -1074, ?_, by simp [IsDouble], ?_⟩
    · rw [hadd, if_pos h0]; rfl
    · rw [hAB]; simp [toRat]
  · have hnat : (X + Y).natAbs = (A + B).natAbs * 2 ^ (-E).toNat := by
      rw [hsum, Int.natAbs_mul, Int.natAbs_pow]
      rfl
    obtain ⟨m1, e1, h1, h2', h3⟩ := roundDyadic_exact (decide (X + Y < 0)) (X + Y).natAbs E
      (A + B).natAbs (-E).toNat hnat hbits (by omega) (by omega)
    refine ⟨decide (X + Y < 0), m1, e1, ?_, h2', ?_⟩
    · rw [hadd, if_neg h0, h1]
    · rw [toRat_fin, h3]
      have hk : ((2 : ℚ) ^ (-E).toNat) * (2 : ℚ) ^ E = 1 := by
        rw [← zpow_natCast, ← zpow_add₀ h2]
        have : (((-E).toNat : Int)) + E = 0 := by omega
        rw [this, zpow_zero]
      have hs := sign_mul_natAbs (X + Y)
      rw [← mul_assoc, hs, hsum]
      push_cast
      rw [mul_assoc, hk, mul_one]

/-- The conversion of an integer of at most 53 bits (or `± 2 ^ 53`) is exact. -/
theorem ofInt_exact (i : Int) (h : i.natAbs ≤ 2 ^ 53) :
    ∃ m e, ofInt i = fin (decide (i < 0)) m e ∧ IsDouble (fin (decide (i < 0)) m e) ∧
      toRat (fin (decide (i < 0)) m e) = (i : ℚ) := by
  have hex : ∃ m1 e1, roundDyadic (decide (i < 0)) i.natAbs 0 = fin (decide (i < 0)) m1 e1 ∧
      IsDouble (fin (decide (i < 0)) m1 e1) ∧
      (m1 : ℚ) * (2 : ℚ) ^ e1 = (i.natAbs : ℚ) * (2 : ℚ) ^ (0 : Int) := by
    by_cases hlt : i.natAbs < 2 ^ 53
    · exact roundDyadic_exact _ i.natAbs 0 i.natAbs 0 (by simp) hlt (by norm_num) (by norm_num)
    · have heq : i.natAbs = 2 ^ 52 * 2 ^ 1 := by omega
      exact roundDyadic_exact _ i.natAbs 0 (2 ^ 52) 1 heq (by norm_num) (by norm_num)
        (by norm_num)
  obtain ⟨m1, e1, h1, h2, h3⟩ := hex
  refine ⟨m1, e1, h1, h2, ?_⟩
  rw [toRat_fin, h3, zpow_zero, mul_one]
  exact sign_mul_natAbs i

end Double

theorem odd_ne_zero_iff (n : Int) : odd n ≠ 0 ↔ n % 2 = 1 := by
  unfold odd
  rw [Nat.and_one_is_mod]
  omega

namespace Double
theorem half_lt_iff (d : Double) (hd : d.isFinite = true) :
    lt half d = true ↔ 1 / 2 < toRat d := by
  cases d with
  | nan => simp [isFinite] at hd
  | inf s => simp [isFinite] at hd
  | fin s m e =>
    have := lt_fin_iff false (2 ^ 52) (-53) s m e
    rw [show fin false (2 ^ 52) (-53) = half from rfl, toRat_half] at this
    exact this

theorem lt_neg_half_iff (d : Double) (hd : d.isFinite = true) :
    lt d (neg half) = true ↔ toRat d < -(1 / 2) := by
  cases d with
  | nan => simp [isFinite] at hd
  | inf s => simp [isFinite] at hd
  | fin s m e =>
    have := lt_fin_iff s m e true (2 ^ 52) (-53)
    rw [show fin true (2 ^ 52) (-53) = neg half from rfl, toRat_neg, toRat_half] at this
    exact this

theorem eq_half_iff (d : Double) (hd : d.isFinite = true) :
    eq d half = true ↔ toRat d = 1 / 2 := by
  cases d with
  | nan => simp [isFinite] at hd
  | inf s => simp [isFinite] at hd
  | fin s m e =>
    have := eq_fin_iff s m e false (2 ^ 52) (-53)
    rw [show fin false (2 ^ 52) (-53) = half from rfl, toRat_half] at this
    exact this

theorem eq_neg_half_iff (d : Double) (hd : d.isFinite = true) :
    eq d (neg half) = true ↔ toRat d = -(1 / 2) := by
  cases d with
  | nan => simp [isFinite] at hd
  | inf s => simp [isFinite] at hd
  | fin s m e =>
    have := eq_fin_iff s m e true (2 ^ 52) (-53)
    rw [show fin true (2 ^ 52) (-53) = neg half from rfl, toRat_neg, toRat_half] at this
    exact this

theorem truncate?_of_int (c : Bool) (m : Nat) (e : Int) (Z : Int)
    (h : toRat (fin c m e) = (Z : ℚ)) : truncate? (fin c m e) = some Z := by
  obtain ⟨N, φ, hT, hval, h0, h1, _, _⟩ := truncate?_fin c m e
  rw [hT]
  congr 1
  rw [toRat_fin, hval] at h
  cases c with
  | false =>
    simp only [Bool.false_eq_true, if_false, one_mul] at h
    have h2 : ((Z - N : Int) : ℚ) = φ := by push_cast; linarith
    have h3 : (0 : ℚ) ≤ ((Z - N : Int) : ℚ) := by rw [h2]; exact h0
    have h4 : ((Z - N : Int) : ℚ) < 1 := by rw [h2]; exact h1
    have h5 : 0 ≤ Z - N := by exact_mod_cast h3
    have h6 : Z - N < 1 := by exact_mod_cast h4
    simp only [signed, Bool.false_eq_true, if_false]
    omega
  | true =>
    simp only [if_true] at h
    have h2 : ((-Z - N : Int) : ℚ) = φ := by push_cast; linarith
    have h3 : (0 : ℚ) ≤ ((-Z - N : Int) : ℚ) := by rw [h2]; exact h0
    have h4 : ((-Z - N : Int) : ℚ) < 1 := by rw [h2]; exact h1
    have h5 : 0 ≤ -Z - N := by exact_mod_cast h3
    have h6 : -Z - N < 1 := by exact_mod_cast h4
    simp only [signed, if_true]
    omega
end Double

theorem cast_int_of_int (cfg : Config) (c : Bool) (m : Nat) (e : Int) (Z : Int)
    (h : Double.toRat (Double.fin c m e) = (Z : ℚ)) (hlo : INT_MIN ≤ Z) (hhi : Z ≤ INT_MAX) :
    cast_int cfg (Double.fin c m e) = Z := by
  unfold cast_int
  rw [Double.truncate?_of_int c m e Z h]
  simp [hlo, hhi]

open Double in
/-- The integral part `T` and the fractional part `F` that `modf` hands to the rounding
code: both doubles, `T` an integer on the side of zero, `F` the rest. -/
theorem modf_parts (s : Bool) (m : Nat) (e : Int) (hd : IsDouble (fin s m e)) :
    ∃ T : Int, ∃ mf ef mi ei,
      modf (fin s m e) = (fin s mf ef, fin s mi ei) ∧
      toRat (fin s mi ei) = (T : ℚ) ∧
      toRat (fin s m e) = (T : ℚ) + toRat (fin s mf ef) ∧
      truncate? (fin s m e) = some T ∧
      ((0 ≤ T ∧ 0 ≤ toRat (fin s mf ef) ∧ toRat (fin s mf ef) < 1) ∨
        (T ≤ 0 ∧ -1 < toRat (fin s mf ef) ∧ toRat (fin s mf ef) ≤ 0)) := by
  obtain ⟨N, φ, mf, ef, mi, ei, hmodf, _, _, hT, hval, h0, h1, hi, hf⟩ := modf_fin s m e hd
  refine ⟨signed s N, mf, ef, mi, ei, hmodf, ?_, ?_, hT, ?_⟩
  · rw [toRat_fin, hi, signed_cast]
  · rw [toRat_fin, toRat_fin, hval, hf, signed_cast]; ring
  · rw [toRat_fin, hf]
    cases s with
    | false =>
      left
      simp only [signed, Bool.false_eq_true, if_false, one_mul]
      exact ⟨Int.natCast_nonneg N, h0, h1⟩
    | true =>
      right
      simp only [signed, if_true]
      refine ⟨by omega, by linarith, by linarith⟩

open Double in
theorem round_adjust_value (cfg : Config) (s : Bool) (m : Nat) (e : Int)
    (hd : IsDouble (fin s m e)) (n : Int) (hn : IsRoundHalfEven (toRat (fin s m e)) n)
    (hlo : INT_MIN ≤ n) (hhi : n ≤ INT_MAX) :
    cast_int cfg (round_adjust cfg (fin s m e)) = n := by
  obtain ⟨T, mf, ef, mi, ei, hmodf, hTi, hq, _, hsign⟩ := modf_parts s m e hd
  obtain ⟨F, hF⟩ : ∃ F, F = toRat (fin s mf ef) := ⟨_, rfl⟩
  rw [← hF] at hq hsign
  have hc1 := half_lt_iff (fin s mf ef) rfl
  have hc2 := eq_half_iff (fin s mf ef) rfl
  have hc3 := lt_neg_half_iff (fin s mf ef) rfl
  have hc4 := eq_neg_half_iff (fin s mf ef) rfl
  rw [← hF] at hc1 hc2 hc3 hc4
  -- the distance of `n` from the integral part
  have hn' : |F - ((n - T : Int) : ℚ)| < 1 / 2 ∨
      (|F - ((n - T : Int) : ℚ)| = 1 / 2 ∧ n % 2 = 0) := by
    simp only [IsRoundHalfEven, Int.even_iff] at hn
    rw [hq] at hn
    have : (T : ℚ) + F - (n : ℚ) = F - ((n - T : Int) : ℚ) := by push_cast; ring
    rw [this] at hn
    exact hn
  have hle : |F - ((n - T : Int) : ℚ)| ≤ 1 / 2 := by
    rcases hn' with h | h
    · exact le_of_lt h
    · exact le_of_eq h.1
  have hle' := abs_le.1 hle
  push_cast at hle'
  have hrange : (INT_MIN : Int) = -2147483648 ∧ (INT_MAX : Int) = 2147483647 := by
    constructor <;> norm_num [INT_MIN, INT_MAX]
  have hone : toRat (fin false (2 ^ 52) (-52)) = ((1 : Int) : ℚ) := by
    rw [show fin false (2 ^ 52) (-52) = one from rfl, toRat_one]; norm_num
  have hmone : toRat (fin true (2 ^ 52) (-52)) = ((-1 : Int) : ℚ) := by
    rw [show fin true (2 ^ 52) (-52) = neg one from rfl, toRat_neg, toRat_one]; norm_num
  -- the three outcomes of the adjustment
  have hup : n = T + 1 → cast_int cfg (add (fin s mi ei) one) = n := by
    intro hnT
    obtain ⟨c, m1, e1, h1, _, h3⟩ := add_int_exact s mi ei false (2 ^ 52) (-52) T 1 hTi hone
      (le_trans (min_le_right _ _) (by norm_num)) (by omega)
    rw [show one = fin false (2 ^ 52) (-52) from rfl, h1]
    exact cast_int_of_int cfg c m1 e1 n (by rw [h3, hnT]) hlo hhi
  have hdown : n = T - 1 → cast_int cfg (sub (fin s mi ei) one) = n := by
    intro hnT
    obtain ⟨c, m1, e1, h1, _, h3⟩ := add_int_exact s mi ei true (2 ^ 52) (-52) T (-1) hTi hmone
      (le_trans (min_le_right _ _) (by norm_num)) (by omega)
    rw [show sub (fin s mi ei) one = add (fin s mi ei) (fin true (2 ^ 52) (-52)) from rfl, h1]
    exact cast_int_of_int cfg c m1 e1 n (by rw [h3, hnT]; rfl) hlo hhi
  have hsame : n = T → cast_int cfg (fin s mi ei) = n := by
    intro hnT
    exact cast_int_of_int cfg s mi ei n (by rw [hTi, hnT]) hlo hhi
  -- integrality of n - T
  have hint : ∀ (a b : Int), (a : ℚ) < ((n - T : Int) : ℚ) → ((n - T : Int) : ℚ) < (b : ℚ) →
      a < n - T ∧ n - T < b := by
    intro a b h1 h2
    exact ⟨by exact_mod_cast h1, by exact_mod_cast h2⟩
  unfold round_adjust
  rw [hmodf]
  simp only []
  have bfalse : ∀ {b : Bool} {p : Prop}, (b = true ↔ p) → ¬ p → b = false := by
    intro b p h hp
    rw [Bool.eq_false_iff]
    exact fun hb => hp (h.1 hb)
  have hoddT : ∀ {t : Int}, t % 2 = 1 → (odd t != 0) = true :=
    fun h => bne_iff_ne.2 ((odd_ne_zero_iff _).2 h)
  have hevenT : ∀ {t : Int}, ¬ t % 2 = 1 → (odd t != 0) = false := by
    intro t h
    rw [Bool.eq_false_iff]
    exact fun hb => h ((odd_ne_zero_iff _).1 (bne_iff_ne.1 hb))
  have hδ : -1 ≤ n - T ∧ n - T ≤ 1 := by
    have h1 : ((-2 : Int) : ℚ) < ((n - T : Int) : ℚ) := by
      push_cast
      rcases hsign with h | h <;> linarith [hle'.1, hle'.2]
    have h2 : ((n - T : Int) : ℚ) < ((2 : Int) : ℚ) := by
      push_cast
      rcases hsign with h | h <;> linarith [hle'.1, hle'.2]
    have := hint (-2) 2 h1 h2
    omega
  by_cases hA : 1 / 2 < F
  · have b1 : lt half (fin s mf ef) = true := hc1.2 hA
    simp only [b1, Bool.true_or, if_true]
    apply hup
    have h1 : ((0 : Int) : ℚ) < ((n - T : Int) : ℚ) := by push_cast; linarith [hle'.2]
    have : 0 < n - T := by exact_mod_cast h1
    omega
  · have b1 : lt half (fin s mf ef) = false := bfalse hc1 hA
    by_cases hB : F = 1 / 2
    · have b2 : eq (fin s mf ef) half = true := hc2.2 hB
      have b3 : lt (fin s mf ef) (neg half) = false := bfalse hc3 (by rw [hB]; norm_num)
      have b4 : eq (fin s mf ef) (neg half) = false := bfalse hc4 (by rw [hB]; norm_num)
      have hT0 : 0 ≤ T := by
        rcases hsign with h | h
        · exact h.1
        · exfalso; linarith [h.2.2]
      have h1 : ((-1 : Int) : ℚ) < ((n - T : Int) : ℚ) := by push_cast; linarith [hle'.2]
      have hδ0 : -1 < n - T := by exact_mod_cast h1
      have heven : n % 2 = 0 := by
        rcases hn' with h | h
        · exfalso
          have h' := abs_lt.1 h
          push_cast at h'
          have h2 : ((0 : Int) : ℚ) < ((n - T : Int) : ℚ) := by push_cast; linarith [h'.2]
          have h3 : ((n - T : Int) : ℚ) < ((1 : Int) : ℚ) := by push_cast; linarith [h'.1]
          have := hint 0 1 h2 h3
          omega
        · exact h.2
      have hcast : cast_int cfg (fin s mi ei) = T :=
        cast_int_of_int cfg s mi ei T hTi (by omega) (by omega)
      rw [hcast]
      by_cases hodd : T % 2 = 1
      · simp only [b1, b2, hoddT hodd, Bool.true_and, Bool.false_or, if_true]
        apply hup
        omega
      · simp only [b1, b2, b3, b4, hevenT hodd, Bool.and_false, Bool.false_and, Bool.or_false,
          Bool.false_eq_true, if_false]
        apply hsame
        omega
    · have b2 : eq (fin s mf ef) half = false := bfalse hc2 hB
      simp only [b1, b2, Bool.false_and, Bool.or_false, Bool.false_eq_true, if_false]
      by_cases hC : F < -(1 / 2)
      · have b3 : lt (fin s mf ef) (neg half) = true := hc3.2 hC
        simp only [b3, Bool.true_or, if_true]
        apply hdown
        have h1 : ((n - T : Int) : ℚ) < ((0 : Int) : ℚ) := by push_cast; linarith [hle'.1]
        have : n - T < 0 := by exact_mod_cast h1
        omega
      · have b3 : lt (fin s mf ef) (neg half) = false := bfalse hc3 hC
        by_cases hD : F = -(1 / 2)
        · have b4 : eq (fin s mf ef) (neg half) = true := hc4.2 hD
          have hT0 : T ≤ 0 := by
            rcases hsign with h | h
            · exfalso; linarith [h.2.1]
            · exact h.1
          have h1 : ((n - T : Int) : ℚ) < ((1 : Int) : ℚ) := by push_cast; linarith [hle'.1]
          have hδ0 : n - T < 1 := by exact_mod_cast h1
          have heven : n % 2 = 0 := by
            rcases hn' with h | h
            · exfalso
              have h' := abs_lt.1 h
              push_cast at h'
              have h2 : ((-1 : Int) : ℚ) < ((n - T : Int) : ℚ) := by push_cast; linarith [h'.2]
              have h3 : ((n - T : Int) : ℚ) < ((0 : Int) : ℚ) := by push_cast; linarith [h'.1]
              have := hint (-1) 0 h2 h3
              omega
            · exact h.2
          have hcast : cast_int cfg (fin s mi ei) = T :=
            cast_int_of_int cfg s mi ei T hTi (by omega) (by omega)
          rw [hcast]
          by_cases hodd : T % 2 = 1
          · simp only [b3, b4, hoddT hodd, Bool.true_and, Bool.false_or, if_true]
            apply hdown
            omega
          · simp only [b3, b4, hevenT hodd, Bool.and_false, Bool.or_false,
              Bool.false_eq_true, if_false]
            apply hsame
            omega
        · have b4 : eq (fin s mf ef) (neg half) = false := bfalse hc4 hD
          simp only [b3, b4, Bool.false_and, Bool.or_false, Bool.false_eq_true, if_false]
          apply hsame
          have hF1 : F < 1 / 2 := lt_of_le_of_ne (not_lt.1 hA) hB
          have hF2 : -(1 / 2) < F := lt_of_le_of_ne (not_lt.1 hC) (Ne.symm hD)
          have h2 : ((-1 : Int) : ℚ) < ((n - T : Int) : ℚ) := by push_cast; linarith [hle'.2]
          have h3 : ((n - T : Int) : ℚ) < ((1 : Int) : ℚ) := by push_cast; linarith [hle'.1]
          have := hint (-1) 1 h2 h3
          omega

/-! ## The machine: what one entry into a label does -/

theorem EVAL_RIGID_FLOAT_float (l : Label) (s : State) (a : Nat) (d : Double)
    (h0 : s.stack s.sp = .boxed a) (ha : s.heap a = .float d) :
    EVAL_RIGID_FLOAT l s = .value { s with forced := s.forced ++ [.boxed a] } := by
  unfold EVAL_RIGID_FLOAT
  rw [h0]
  simp only [ha]

theorem EVAL_RIGID_INT_int (cfg : Config) (l : Label) (s : State) (x : Ref) (i : Int)
    (h0 : s.stack s.sp = x)
    (hx : (∃ a, x = .boxed a ∧ s.heap a = .int i) ∨
      (cfg.ONLY_BOXED_OBJECTS = false ∧ x = .unboxed i)) :
    EVAL_RIGID_INT cfg l s = .value { s with forced := s.forced ++ [x] } ∧
      int_val s x = some i := by
  unfold EVAL_RIGID_INT
  rw [h0]
  rcases hx with ⟨a, hxa, ha⟩ | ⟨hb, hxi⟩
  · subst hxa
    simp [ha, int_val]
  · subst hxi
    simp [hb, int_val]

/-- The entry point of a binary primitive on two evaluated operands: the top operand is
logged as forced, the two slots are exchanged, and the private label is next. -/
theorem binary_entry_float (self next : Label) (s : State) (a b : Nat) (d : Double)
    (h0 : s.stack s.sp = .boxed a) (h1 : s.stack (s.sp + 1) = .boxed b)
    (ha : s.heap a = .float d) :
    ∃ s1, binary_entry self next s = .goto next s1 ∧
      s1.sp = s.sp ∧ s1.stack s.sp = .boxed b ∧ s1.stack (s.sp + 1) = .boxed a ∧
      s1.heap = s.heap ∧ s1.hp = s.hp ∧ s1.allocs = s.allocs ∧
      s1.forced = s.forced ++ [.boxed a] ∧
      ∀ k, k ≠ s.sp → k ≠ s.sp + 1 → s1.stack k = s.stack k := by
  unfold binary_entry
  rw [EVAL_RIGID_FLOAT_float self s a d h0 ha]
  refine ⟨_, rfl, rfl, ?_, ?_, rfl, rfl, rfl, rfl, ?_⟩
  · simp [State.setSlot, Function.update, h1]
  · simp [State.setSlot, Function.update, h0]
  · intro k hk0 hk1
    simp [State.setSlot, Function.update, hk0, hk1]

/-- The private label of a binary primitive on two evaluated operands, the first operand of
the primitive lying in slot 1 and the second in slot 0. -/
theorem binary_label_float (self : Label) (op : Double → Double → Double) (cfg : Config)
    (s : State) (a b : Nat) (d e : Double)
    (h0 : s.stack s.sp = .boxed b) (h1 : s.stack (s.sp + 1) = .boxed a)
    (ha : s.heap a = .float d) (hb : s.heap b = .float e) :
    ∃ s1, binary_label self op cfg s = .ret (.boxed s.hp) s1 ∧
      s1.heap s.hp = .float (op d e) ∧ (∀ k, k ≠ s.hp → s1.heap k = s.heap k) ∧
      s1.sp = s.sp + 2 ∧ s1.stack = s.stack ∧ s1.hp = s.hp + cfg.float_node_size ∧
      s1.hp ≤ s1.heap_end ∧ s1.allocs = s.allocs + 1 ∧
      s1.forced = s.forced ++ [.boxed b] := by
  unfold binary_label
  rw [EVAL_RIGID_FLOAT_float self s b e h0 hb]
  simp only [get_float_val, h0, h1, ha, hb]
  unfold CHECK_HEAP State.alloc
  split
  · refine ⟨_, rfl, by simp, ?_, rfl, rfl, rfl, by assumption, rfl, rfl⟩
    intro k hk
    simp [Function.update, hk]
  · refine ⟨_, rfl, by simp, ?_, rfl, rfl, rfl, le_refl _, rfl, rfl⟩
    intro k hk
    simp [Function.update, hk]

/-- A binary primitive on two evaluated operands returns in two entries. -/
theorem binary_run (cfg : Config) (env : Nat → (Nat → Node) → (Nat → Node))
    (entry lab : Label) (op : Double → Double → Double)
    (hentry : step cfg entry = binary_entry entry lab)
    (hlab : step cfg lab = binary_label lab op cfg)
    (fuel : Nat) (s : State) (a b : Nat) (d e : Double)
    (h0 : s.stack s.sp = .boxed a) (h1 : s.stack (s.sp + 1) = .boxed b)
    (ha : s.heap a = .float d) (hb : s.heap b = .float e) :
    ∃ s1, run cfg env (fuel + 2) entry s = some (.boxed s.hp, s1) ∧
      s1.heap s.hp = .float (op d e) ∧ (∀ k, k ≠ s.hp → s1.heap k = s.heap k) ∧
      s1.sp = s.sp + 2 ∧ s1.hp = s.hp + cfg.float_node_size ∧ s1.hp ≤ s1.heap_end ∧
      s1.allocs = s.allocs + 1 ∧
      s1.forced = s.forced ++ [.boxed a, .boxed b] := by
  obtain ⟨s2, hs2, hsp, hst0, hst1, hheap, hhp, hal, hfo, _⟩ :=
    binary_entry_float entry lab s a b d h0 h1 ha
  obtain ⟨s3, hs3, hv, hfr, hsp3, _, hhp3, hle, hal3, hfo3⟩ :=
    binary_label_float lab op cfg s2 a b d e (by rw [hsp]; exact hst0)
      (by rw [hsp]; exact hst1) (by rw [hheap]; exact ha) (by rw [hheap]; exact hb)
  refine ⟨s3, ?_, ?_, ?_, ?_, ?_, hle, ?_, ?_⟩
  · show run cfg env (fuel + 1 + 1) entry s = _
    rw [run, hentry, hs2]
    simp only
    rw [run, hlab, hs3, hhp]
  · rw [← hhp]; exact hv
  · intro k hk
    rw [hfr k (by rw [hhp]; exact hk), hheap]
  · rw [hsp3, hsp]
  · rw [hhp3, hhp]
  · rw [hal3, hal]
  · rw [hfo3, hfo]; simp

/-- The end of the conversions to integer: the returned reference stands for `(int)d`. -/
theorem return_int_spec (cfg : Config) (d : Double) (s : State) :
    ∃ r s1, return_int cfg d s = .ret r s1 ∧ int_val s1 r = some (cast_int cfg d) ∧
      s1.sp = s.sp ∧ s1.forced = s.forced ∧
      (cfg.ONLY_BOXED_OBJECTS = true →
        r = .boxed s.hp ∧ s1.heap s.hp = .int (cast_int cfg d) ∧
          s1.hp = s.hp + cfg.int_node_size ∧ s1.allocs = s.allocs + 1) ∧
      (cfg.ONLY_BOXED_OBJECTS = false →
        r = .unboxed (cast_int cfg d) ∧ s1.hp = s.hp ∧ s1.allocs = s.allocs ∧
          s1.heap = s.heap) := by
  unfold return_int
  by_cases hb : cfg.ONLY_BOXED_OBJECTS = true
  · rw [if_pos hb]
    unfold CHECK_HEAP State.alloc
    split
    · exact ⟨_, _, rfl, by simp [int_val], rfl, rfl, fun _ => ⟨rfl, by simp, rfl, rfl⟩,
        fun h => by rw [hb] at h; cases h⟩
    · exact ⟨_, _, rfl, by simp [int_val], rfl, rfl, fun _ => ⟨rfl, by simp, rfl, rfl⟩,
        fun h => by rw [hb] at h; cases h⟩
  · rw [if_neg hb]
    exact ⟨_, _, rfl, by simp [int_val, mk_int], rfl, rfl, fun h => absurd h hb,
      fun _ => ⟨rfl, rfl, rfl, rfl⟩⟩

theorem truncateFloat_run (cfg : Config) (env : Nat → (Nat → Node) → (Nat → Node))
    (fuel : Nat) (s : State) (a : Nat) (d : Double)
    (h0 : s.stack s.sp = .boxed a) (ha : s.heap a = .float d) :
    ∃ r s1, run cfg env (fuel + 1) .__truncateFloat s = some (r, s1) ∧
      int_val s1 r = some (cast_int cfg d) ∧ s1.sp = s.sp + 1 ∧
      s1.forced = s.forced ++ [.boxed a] := by
  obtain ⟨r, s1, h1, h2, h3, h4, _, _⟩ := return_int_spec cfg d
    { s with sp := s.sp + 1, forced := s.forced ++ [.boxed a] }
  refine ⟨r, s1, ?_, h2, h3, h4⟩
  rw [run]
  show (match __truncateFloat cfg s with
    | .goto l1 s1 => run cfg env fuel l1 s1
    | .suspend l1 s1 => run cfg env fuel l1 { s1 with heap := env fuel s1.heap }
    | .ret r s1 => some (r, s1)
    | .undefined => none) = _
  unfold __truncateFloat
  rw [EVAL_RIGID_FLOAT_float _ s a d h0 ha]
  simp only [get_float_val, h0, ha]
  rw [h1]

theorem roundFloat_run (cfg : Config) (env : Nat → (Nat → Node) → (Nat → Node))
    (fuel : Nat) (s : State) (a : Nat) (d : Double)
    (h0 : s.stack s.sp = .boxed a) (ha : s.heap a = .float d) :
    ∃ r s1, run cfg env (fuel + 1) .__roundFloat s = some (r, s1) ∧
      int_val s1 r = some (cast_int cfg (round_adjust cfg d)) ∧ s1.sp = s.sp + 1 ∧
      s1.forced = s.forced ++ [.boxed a] := by
  obtain ⟨r, s1, h1, h2, h3, h4, _, _⟩ := return_int_spec cfg (round_adjust cfg d)
    { s with sp := s.sp + 1, forced := s.forced ++ [.boxed a] }
  refine ⟨r, s1, ?_, h2, h3, h4⟩
  rw [run]
  show (match __roundFloat cfg s with
    | .goto l1 s1 => run cfg env fuel l1 s1
    | .suspend l1 s1 => run cfg env fuel l1 { s1 with heap := env fuel s1.heap }
    | .ret r s1 => some (r, s1)
    | .undefined => none) = _
  unfold __roundFloat
  rw [EVAL_RIGID_FLOAT_float _ s a d h0 ha]
  simp only [get_float_val, h0, ha]
  rw [h1]

theorem floatFromInt_run (cfg : Config) (env : Nat → (Nat → Node) → (Nat → Node))
    (fuel : Nat) (s : State) (x : Ref) (i : Int) (h0 : s.stack s.sp = x)
    (hx : (∃ a, x = .boxed a ∧ s.heap a = .int i) ∨
      (cfg.ONLY_BOXED_OBJECTS = false ∧ x = .unboxed i)) :
    ∃ s1, run cfg env (fuel + 1) .__floatFromInt s = some (.boxed s.hp, s1) ∧
      s1.heap s.hp = .float (Double.ofInt i) ∧ (∀ k, k ≠ s.hp → s1.heap k = s.heap k) ∧
      s1.sp = s.sp + 1 ∧ s1.hp = s.hp + cfg.float_node_size ∧ s1.allocs = s.allocs + 1 := by
  obtain ⟨he, hv⟩ := EVAL_RIGID_INT_int cfg .__floatFromInt s x i h0 hx
  have hstep : ∃ s1, __floatFromInt cfg s = .ret (.boxed s.hp) s1 ∧
      s1.heap s.hp = .float (Double.ofInt i) ∧ (∀ k, k ≠ s.hp → s1.heap k = s.heap k) ∧
      s1.sp = s.sp + 1 ∧ s1.hp = s.hp + cfg.float_node_size ∧ s1.allocs = s.allocs + 1 := by
    unfold __floatFromInt
    rw [he]
    have hv' : int_val { s with forced := s.forced ++ [x] } (s.stack s.sp) = some i := by
      rw [h0]
      cases x with
      | boxed a => simpa [int_val] using hv
      | unboxed j => simpa [int_val] using hv
    simp only [hv']
    unfold CHECK_HEAP State.alloc
    split
    · refine ⟨_, rfl, by simp, ?_, rfl, rfl, rfl⟩
      intro k hk
      simp [Function.update, hk]
    · refine ⟨_, rfl, by simp, ?_, rfl, rfl, rfl⟩
      intro k hk
      simp [Function.update, hk]
  obtain ⟨s1, hs1, rest⟩ := hstep
  refine ⟨s1, ?_, rest⟩
  rw [run]
  show (match __floatFromInt cfg s with
    | .goto l1 s1 => run cfg env fuel l1 s1
    | .suspend l1 s1 => run cfg env fuel l1 { s1 with heap := env fuel s1.heap }
    | .ret r s1 => some (r, s1)
    | .undefined => none) = _
  rw [hs1]

/-! ## The conversions and the arithmetic: the claims -/

open Double

set_option maxRecDepth 100000

set_option exponentiation.threshold 2000

theorem cast_int_range (cfg : Config) (d : Double) :
    INT_MIN ≤ cast_int cfg d ∧ cast_int cfg d ≤ INT_MAX := by
  have hw : ∀ x, INT_MIN ≤ wrapInt x ∧ wrapInt x ≤ INT_MAX := by
    intro x
    unfold wrapInt INT_MIN INT_MAX
    constructor <;> omega
  unfold cast_int
  split
  · split
    · assumption
    · exact hw _
  · exact hw _

theorem cast_int_integral_part (cfg : Config) (s : Bool) (m : Nat) (e : Int) (n : Int)
    (hn : IsIntegralPart (toRat (fin s m e)) n) (hlo : INT_MIN ≤ n) (hhi : n ≤ INT_MAX) :
    cast_int cfg (fin s m e) = n := by
  obtain ⟨N, φ, hT, hval, h0, h1, _, _⟩ := truncate?_fin s m e
  obtain ⟨hn1, hn2, hn3⟩ := hn
  have hNφ : (0 : ℚ) ≤ (N : ℚ) + φ := add_nonneg (Nat.cast_nonneg N) h0
  have habs : |toRat (fin s m e)| = (N : ℚ) + φ := by
    rw [toRat_fin, hval]
    cases s with
    | false => simp only [Bool.false_eq_true, if_false, one_mul]; exact abs_of_nonneg hNφ
    | true =>
      simp only [if_true]
      rw [show (-1 : ℚ) * ((N : ℚ) + φ) = -((N : ℚ) + φ) by ring, abs_neg]
      exact abs_of_nonneg hNφ
  have hcast : |(n : ℚ)| = ((n.natAbs : Nat) : ℚ) := by rw [Nat.cast_natAbs, Int.cast_abs]
  rw [habs, hcast] at hn1 hn2
  have hA1 : ((n.natAbs : Nat) : ℚ) < ((N + 1 : Nat) : ℚ) := by push_cast; linarith
  have hA2 : ((N : Nat) : ℚ) < ((n.natAbs + 1 : Nat) : ℚ) := by push_cast; linarith
  have hA1' : n.natAbs < N + 1 := by exact_mod_cast hA1
  have hA2' : N < n.natAbs + 1 := by exact_mod_cast hA2
  have hN : N = n.natAbs := by omega
  have hres : signed s N = n := by
    by_cases hz : n = 0
    · subst hz
      simp at hN
      subst hN
      cases s <;> simp [signed]
    · have hsgn := hn3 hz
      have hNpos : (0 : ℚ) < (N : ℚ) := by
        have : 0 < N := by omega
        exact_mod_cast this
      rw [toRat_fin, hval] at hsgn
      cases s with
      | false =>
        simp only [Bool.false_eq_true, if_false, one_mul] at hsgn
        have : ¬ n < 0 := fun h => absurd (hsgn.1 h) (not_lt.2 hNφ)
        simp only [signed, Bool.false_eq_true, if_false]
        omega
      | true =>
        simp only [if_true] at hsgn
        have : n < 0 := hsgn.2 (by linarith)
        simp only [signed, if_true]
        omega
  unfold cast_int
  rw [hT, hres]
  simp [hlo, hhi]

/-- On a finite double whose integral part fits an `int`, `__truncateFloat` returns that
integral part. -/
theorem truncateFloat_value (cfg : Config) (env : Nat → (Nat → Node) → (Nat → Node))
    (fuel : Nat) (s : State) (a : Nat) (d : Double) (n : Int)
    (h0 : s.stack s.sp = .boxed a) (ha : s.heap a = .float d) (hf : d.isFinite = true)
    (hn : IsIntegralPart d.toRat n) (hlo : INT_MIN ≤ n) (hhi : n ≤ INT_MAX) :
    ∃ r s1, run cfg env (fuel + 1) .__truncateFloat s = some (r, s1) ∧
      int_val s1 r = some n := by
  obtain ⟨r, s1, h1, h2, _, _⟩ := truncateFloat_run cfg env fuel s a d h0 ha
  refine ⟨r, s1, h1, ?_⟩
  rw [h2]
  cases d with
  | nan => simp [isFinite] at hf
  | inf b => simp [isFinite] at hf
  | fin b m e => rw [cast_int_integral_part cfg b m e n hn hlo hhi]

/-- On a finite double whose value rounded half to even fits an `int`, `__roundFloat`
returns that value. -/
theorem roundFloat_value (cfg : Config) (env : Nat → (Nat → Node) → (Nat → Node))
    (fuel : Nat) (s : State) (a : Nat) (d : Double) (n : Int)
    (h0 : s.stack s.sp = .boxed a) (ha : s.heap a = .float d) (hd : IsDouble d)
    (hf : d.isFinite = true) (hn : IsRoundHalfEven d.toRat n) (hlo : INT_MIN ≤ n)
    (hhi : n ≤ INT_MAX) :
    ∃ r s1, run cfg env (fuel + 1) .__roundFloat s = some (r, s1) ∧
      int_val s1 r = some n := by
  obtain ⟨r, s1, h1, h2, _, _⟩ := roundFloat_run cfg env fuel s a d h0 ha
  refine ⟨r, s1, h1, ?_⟩
  rw [h2]
  cases d with
  | nan => simp [isFinite] at hf
  | inf b => simp [isFinite] at hf
  | fin b m e => rw [round_adjust_value cfg b m e hd n hn hlo hhi]

theorem lit_39_10 : lit false 39 10 = fin false 8782019273372467 (-51) := by decide
theorem lit_neg_39_10 : lit true 39 10 = fin true 8782019273372467 (-51) := by decide
theorem lit_5_2 : lit false 5 2 = fin false 5629499534213120 (-51) := by decide
theorem lit_neg_5_2 : lit true 5 2 = fin true 5629499534213120 (-51) := by decide
theorem lit_7_2 : lit false 7 2 = fin false 7881299347898368 (-51) := by decide
theorem lit_neg_7_2 : lit true 7 2 = fin true 7881299347898368 (-51) := by decide
theorem lit_49_100 : lit false 49 100 = fin false 8827055269646172 (-54) := by decide
theorem lit_1_2 : lit false 1 2 = fin false 4503599627370496 (-53) := by decide

/-- Reference values of the binary64 model: `0.1 + 0.2` is `0.30000000000000004`,
`1.0 / 3.0` is `0.3333333333333333`, the largest finite double doubled overflows
to infinity, the smallest subnormal halved underflows to zero, `1.0 / 0.0` is
infinite and `0.0 / 0.0` is NaN. -/
theorem binary64_reference_values :
    add (lit false 1 10) (lit false 2 10) = fin false 5404319552844596 (-54) ∧
    div one (ofInt 3) = fin false 6004799503160661 (-54) ∧
    add (fin false 9007199254740991 971) (fin false 9007199254740991 971) = inf false ∧
    mul (fin false 1 (-1074)) half = zero false ∧
    div one (zero false) = inf false ∧
    div (zero false) (zero false) = nan := by
  refine ⟨?_, ?_, ?_, ?_, ?_, ?_⟩ <;> decide

/-- C2: for every finite double `d` whose integral part `n` lies within the range of `int`,
`__truncateFloat` returns an integer of value `n`, where `n` is the one integer with
`|n| ≤ |d| < |n| + 1` and the sign of `d` unless it is zero; in particular
truncate(3.9) = 3 and truncate(-3.9) = -3. -/
theorem truncateFloat_integral_part :
    (∀ (cfg : Config) (env : Nat → (Nat → Node) → (Nat → Node)) (fuel : Nat) (s : State)
        (a : Nat) (d : Double) (n : Int),
        s.stack s.sp = .boxed a → s.heap a = .float d → d.isFinite = true →
        IsIntegralPart d.toRat n → INT_MIN ≤ n → n ≤ INT_MAX →
        ∃ r s1, run cfg env (fuel + 1) .__truncateFloat s = some (r, s1) ∧
          int_val s1 r = some n) ∧
    (∀ (cfg : Config) (env : Nat → (Nat → Node) → (Nat → Node)) (fuel : Nat) (s : State)
        (a : Nat), s.stack s.sp = .boxed a → s.heap a = .float (lit false 39 10) →
        ∃ r s1, run cfg env (fuel + 1) .__truncateFloat s = some (r, s1) ∧
          int_val s1 r = some 3) ∧
    (∀ (cfg : Config) (env : Nat → (Nat → Node) → (Nat → Node)) (fuel : Nat) (s : State)
        (a : Nat), s.stack s.sp = .boxed a → s.heap a = .float (lit true 39 10) →
        ∃ r s1, run cfg env (fuel + 1) .__truncateFloat s = some (r, s1) ∧
          int_val s1 r = some (-3)) := by
  refine ⟨fun cfg env fuel s a d n h0 ha hf hn hlo hhi =>
    truncateFloat_value cfg env fuel s a d n h0 ha hf hn hlo hhi, ?_, ?_⟩
  · intro cfg env fuel s a h0 ha
    refine truncateFloat_value cfg env fuel s a _ 3 h0 ha (by decide) ?_ (by decide) (by decide)
    rw [lit_39_10]
    refine ⟨?_, ?_, ?_⟩
    · norm_num [toRat, zpow_neg, abs_le, le_abs]
    · norm_num [toRat, zpow_neg, abs_lt]
    · norm_num [toRat, zpow_neg]
  · intro cfg env fuel s a h0 ha
    refine truncateFloat_value cfg env fuel s a _ (-3) h0 ha (by decide) ?_ (by decide)
      (by decide)
    rw [lit_neg_39_10]
    refine ⟨?_, ?_, ?_⟩
    · norm_num [toRat, zpow_neg, abs_le, le_abs]
    · norm_num [toRat, zpow_neg, abs_lt]
    · norm_num [toRat, zpow_neg]

/-- Witness of C2: the state whose stack holds one reference, to a float node of payload
`3.9`. -/
theorem truncateFloat_integral_part_witness :
    ∃ r s1, run boxedBuild idle 1 .__truncateFloat
        (State.init [.boxed 0] [.float (lit false 39 10)]) = some (r, s1) ∧
      int_val s1 r = some 3 :=
  truncateFloat_integral_part.1 boxedBuild idle 0
    (State.init [.boxed 0] [.float (lit false 39 10)]) 0 (lit false 39 10) 3 rfl rfl
    (by decide)
    (by
      rw [lit_39_10]
      refine ⟨?_, ?_, ?_⟩
      · norm_num [toRat, zpow_neg, abs_le, le_abs]
      · norm_num [toRat, zpow_neg, abs_lt]
      · norm_num [toRat, zpow_neg])
    (by decide) (by decide)

/-- C1 as amended: for every finite double `d` whose value rounded half to even, `n`, lies
within the range of `int`, `__roundFloat` returns an integer of value `n`: the integer
nearest to `d`, and the even one of the two nearest when `d` lies halfway; in particular
round(2.5) = 2, round(3.5) = 4, round(-2.5) = -2, round(0.49) = 0 and round(0.5) = 0. -/
theorem roundFloat_half_even :
    (∀ (cfg : Config) (env : Nat → (Nat → Node) → (Nat → Node)) (fuel : Nat) (s : State)
        (a : Nat) (d : Double) (n : Int),
        s.stack s.sp = .boxed a → s.heap a = .float d → IsDouble d → d.isFinite = true →
        IsRoundHalfEven d.toRat n → INT_MIN ≤ n → n ≤ INT_MAX →
        ∃ r s1, run cfg env (fuel + 1) .__roundFloat s = some (r, s1) ∧
          int_val s1 r = some n) ∧
    (∀ (cfg : Config) (env : Nat → (Nat → Node) → (Nat → Node)) (fuel : Nat) (s : State)
        (a : Nat), s.stack s.sp = .boxed a →
        (s.heap a = .float (lit false 5 2) →
          ∃ r s1, run cfg env (fuel + 1) .__roundFloat s = some (r, s1) ∧
            int_val s1 r = some 2) ∧
        (s.heap a = .float (lit false 7 2) →
          ∃ r s1, run cfg env (fuel + 1) .__roundFloat s = some (r, s1) ∧
            int_val s1 r = some 4) ∧
        (s.heap a = .float (lit true 5 2) →
          ∃ r s1, run cfg env (fuel + 1) .__roundFloat s = some (r, s1) ∧
            int_val s1 r = some (-2)) ∧
        (s.heap a = .float (lit false 49 100) →
          ∃ r s1, run cfg env (fuel + 1) .__roundFloat s = some (r, s1) ∧
            int_val s1 r = some 0) ∧
        (s.heap a = .float (lit false 1 2) →
          ∃ r s1, run cfg env (fuel + 1) .__roundFloat s = some (r, s1) ∧
            int_val s1 r = some 0)) := by
  refine ⟨fun cfg env fuel s a d n h0 ha hd hf hn hlo hhi =>
    roundFloat_value cfg env fuel s a d n h0 ha hd hf hn hlo hhi, ?_⟩
  intro cfg env fuel s a h0
  refine ⟨fun ha => ?_, fun ha => ?_, fun ha => ?_, fun ha => ?_, fun ha => ?_⟩
  · refine roundFloat_value cfg env fuel s a _ 2 h0 ha (by decide) (by decide) ?_ (by decide)
      (by decide)
    rw [lit_5_2]
    exact Or.inr ⟨by norm_num [toRat, zpow_neg], by decide⟩
  · refine roundFloat_value cfg env fuel s a _ 4 h0 ha (by decide) (by decide) ?_ (by decide)
      (by decide)
    rw [lit_7_2]
    exact Or.inr ⟨by norm_num [toRat, zpow_neg], by decide⟩
  · refine roundFloat_value cfg env fuel s a _ (-2) h0 ha (by decide) (by decide) ?_
      (by decide) (by decide)
    rw [lit_neg_5_2]
    exact Or.inr ⟨by norm_num [toRat, zpow_neg], by decide⟩
  · refine roundFloat_value cfg env fuel s a _ 0 h0 ha (by decide) (by decide) ?_ (by decide)
      (by decide)
    rw [lit_49_100]
    exact Or.inl (by norm_num [toRat, zpow_neg, abs_lt])
  · refine roundFloat_value cfg env fuel s a _ 0 h0 ha (by decide) (by decide) ?_ (by decide)
      (by decide)
    rw [lit_1_2]
    exact Or.inr ⟨by norm_num [toRat, zpow_neg], by decide⟩

/-- Witness of C1 as amended: the state whose stack holds one reference, to a float node of
payload `3.5`. -/
theorem roundFloat_half_even_witness :
    ∃ r s1, run unboxedBuild idle 1 .__roundFloat
        (State.init [.boxed 0] [.float (lit false 7 2)]) = some (r, s1) ∧
      int_val s1 r = some 4 :=
  roundFloat_half_even.1 unboxedBuild idle 0
    (State.init [.boxed 0] [.float (lit false 7 2)]) 0 (lit false 7 2) 4 rfl rfl
    (by decide) (by decide)
    (by rw [lit_7_2]; exact Or.inr ⟨by norm_num [toRat, zpow_neg], by decide⟩)
    (by decide) (by decide)

/-- Counterexample to C1 as stated: the double `2147483647.5`.  Its integral part,
`2147483647`, is the greatest `int`; rounded half to even it is `2147483648`, which is no
`int`.  The code adds `1.0` and converts a double that does not fit: the boxed and the unboxed
build return `-2147483648` on a platform whose conversion yields `INT_MIN`, and no build on
any platform returns `2147483648`. -/
theorem roundFloat_int_max_counterexample :
    IsDouble (fin false 9007199252643840 (-22)) ∧
    toRat (fin false 9007199252643840 (-22)) = 2147483647 + 1 / 2 ∧
    IsIntegralPart (toRat (fin false 9007199252643840 (-22))) 2147483647 ∧
    INT_MIN ≤ 2147483647 ∧ (2147483647 : Int) ≤ INT_MAX ∧
    IsRoundHalfEven (toRat (fin false 9007199252643840 (-22))) 2147483648 ∧
    resultInt (run boxedBuild idle 1 .__roundFloat
      (State.init [.boxed 0] [.float (fin false 9007199252643840 (-22))]))
      = some (-2147483648) ∧
    resultInt (run unboxedBuild idle 1 .__roundFloat
      (State.init [.boxed 0] [.float (fin false 9007199252643840 (-22))]))
      = some (-2147483648) ∧
    ¬ ∃ (cfg : Config) (env : Nat → (Nat → Node) → (Nat → Node)) (fuel : Nat),
      resultInt (run cfg env fuel .__roundFloat
        (State.init [.boxed 0] [.float (fin false 9007199252643840 (-22))]))
        = some 2147483648 := by
  refine ⟨by decide, by norm_num [toRat, zpow_neg], ?_, by decide, by decide, ?_, by decide,
    by decide, ?_⟩
  · refine ⟨?_, ?_, ?_⟩
    · norm_num [toRat, zpow_neg, abs_le, le_abs]
    · norm_num [toRat, zpow_neg, abs_lt]
    · norm_num [toRat, zpow_neg]
  · exact Or.inr ⟨by norm_num [toRat, zpow_neg], by decide⟩
  · rintro ⟨cfg, env, fuel, h⟩
    cases fuel with
    | zero => simp [run, resultInt] at h
    | succ fuel =>
      obtain ⟨r, s1, h1, h2, _, _⟩ := roundFloat_run cfg env fuel
        (State.init [.boxed 0] [.float (fin false 9007199252643840 (-22))]) 0
        (fin false 9007199252643840 (-22)) rfl rfl
      rw [h1] at h
      simp only [resultInt, Option.bind] at h
      rw [h2] at h
      have hr := (cast_int_range cfg
        (round_adjust cfg (fin false 9007199252643840 (-22)))).2
      simp only [Option.some.injEq] at h
      rw [h] at hr
      exact absurd hr (by decide)

theorem isIntegralPart_int (i : Int) : IsIntegralPart (i : ℚ) i := by
  refine ⟨le_refl _, by linarith, fun _ => ?_⟩
  exact Int.cast_lt_zero.symm

theorem isRoundHalfEven_int (i : Int) : IsRoundHalfEven (i : ℚ) i := by
  left
  simp

theorem odd_iff_Odd (n : Int) : odd n ≠ 0 ↔ Odd n := by
  rw [odd_ne_zero_iff, Int.odd_iff]

theorem isRoundHalfEven_neg_tie (n : Int) :
    IsRoundHalfEven ((n : ℚ) - 1 / 2) (if Even n then n else n - 1) := by
  right
  by_cases h : Even n
  · rw [if_pos h]
    refine ⟨?_, h⟩
    rw [show (n : ℚ) - 1 / 2 - (n : ℚ) = -(1 / 2) by ring, abs_neg]
    norm_num
  · rw [if_neg h]
    refine ⟨?_, ?_⟩
    · push_cast
      rw [show (n : ℚ) - 1 / 2 - ((n : ℚ) - 1) = 1 / 2 by ring]
      norm_num
    · rw [Int.even_iff] at h ⊢
      omega

/-- C9: the parity test `odd(n) = (n & 0x01)` of `__roundFloat` agrees with mathematical
parity for every `int`, the negative ones included; and so for every negative integer `n`
in the range of `int`, on the double `n - 0.5` the code returns `n` when `n` is even and
`n - 1` when it is odd, for example round(-3.5) = -4 and round(-2.5) = -2. -/
theorem odd_is_parity_and_negative_ties :
    (∀ n : Int, INT_MIN ≤ n → n ≤ INT_MAX → (odd n ≠ 0 ↔ Odd n)) ∧
    (∀ (cfg : Config) (env : Nat → (Nat → Node) → (Nat → Node)) (fuel : Nat) (s : State)
        (a : Nat) (d : Double) (n : Int),
        s.stack s.sp = .boxed a → s.heap a = .float d → IsDouble d → d.isFinite = true →
        n < 0 → INT_MIN ≤ n → n ≤ INT_MAX → d.toRat = (n : ℚ) - 1 / 2 →
        ∃ r s1, run cfg env (fuel + 1) .__roundFloat s = some (r, s1) ∧
          int_val s1 r = some (if Even n then n else n - 1)) ∧
    (∀ (cfg : Config) (env : Nat → (Nat → Node) → (Nat → Node)) (fuel : Nat) (s : State)
        (a : Nat), s.stack s.sp = .boxed a →
        (s.heap a = .float (lit true 7 2) →
          ∃ r s1, run cfg env (fuel + 1) .__roundFloat s = some (r, s1) ∧
            int_val s1 r = some (-4)) ∧
        (s.heap a = .float (lit true 5 2) →
          ∃ r s1, run cfg env (fuel + 1) .__roundFloat s = some (r, s1) ∧
            int_val s1 r = some (-2))) := by
  refine ⟨fun n _ _ => odd_iff_Odd n, ?_, ?_⟩
  · intro cfg env fuel s a d n h0 ha hd hf hneg hlo hhi hq
    refine roundFloat_value cfg env fuel s a d _ h0 ha hd hf ?_ ?_ ?_
    · rw [hq]; exact isRoundHalfEven_neg_tie n
    · by_cases h : Even n
      · rw [if_pos h]; exact hlo
      · rw [if_neg h]
        rw [Int.even_iff] at h
        unfold INT_MIN at *
        omega
    · by_cases h : Even n
      · rw [if_pos h]; exact hhi
      · rw [if_neg h]; omega
  · intro cfg env fuel s a h0
    refine ⟨fun ha => ?_, fun ha => ?_⟩
    · refine roundFloat_value cfg env fuel s a _ (-4) h0 ha (by decide) (by decide) ?_
        (by decide) (by decide)
      rw [lit_neg_7_2]
      exact Or.inr ⟨by norm_num [toRat, zpow_neg], by decide⟩
    · refine roundFloat_value cfg env fuel s a _ (-2) h0 ha (by decide) (by decide) ?_
        (by decide) (by decide)
      rw [lit_neg_5_2]
      exact Or.inr ⟨by norm_num [toRat, zpow_neg], by decide⟩

/-- Witness of C9: `n = -3` and the double `-3.5`. -/
theorem odd_is_parity_and_negative_ties_witness :
    (odd (-3) ≠ 0 ↔ Odd (-3 : Int)) ∧
    ∃ r s1, run boxedBuild idle 1 .__roundFloat
        (State.init [.boxed 0] [.float (lit true 7 2)]) = some (r, s1) ∧
      int_val s1 r = some (if Even (-3 : Int) then -3 else -3 - 1) :=
  ⟨odd_is_parity_and_negative_ties.1 (-3) (by decide) (by decide),
    odd_is_parity_and_negative_ties.2.1 boxedBuild idle 0
      (State.init [.boxed 0] [.float (lit true 7 2)]) 0 (lit true 7 2) (-3) rfl rfl
      (by decide) (by decide) (by decide) (by decide) (by decide)
      (by rw [lit_neg_7_2]; norm_num [toRat, zpow_neg])⟩

/-- C10: for every integer `i` within the range of `int`, `__floatFromInt` returns a float
node on which `__truncateFloat` returns `i`, and on which `__roundFloat` returns `i`. -/
theorem int_round_trip (cfg : Config) (env : Nat → (Nat → Node) → (Nat → Node))
    (fuel : Nat) (s : State) (x : Ref) (i : Int) (h0 : s.stack s.sp = x)
    (hx : (∃ a, x = .boxed a ∧ s.heap a = .int i) ∨
      (cfg.ONLY_BOXED_OBJECTS = false ∧ x = .unboxed i))
    (hlo : INT_MIN ≤ i) (hhi : i ≤ INT_MAX) :
    ∃ r s1, run cfg env (fuel + 1) .__floatFromInt s = some (r, s1) ∧
      ∀ (env2 : Nat → (Nat → Node) → (Nat → Node)) (fuel2 : Nat) (s2 : State),
        s2.stack s2.sp = r → s2.heap = s1.heap →
        (∃ r2 s3, run cfg env2 (fuel2 + 1) .__truncateFloat s2 = some (r2, s3) ∧
          int_val s3 r2 = some i) ∧
        (∃ r2 s3, run cfg env2 (fuel2 + 1) .__roundFloat s2 = some (r2, s3) ∧
          int_val s3 r2 = some i) := by
  obtain ⟨s1, h1, h2, _⟩ := floatFromInt_run cfg env fuel s x i h0 hx
  have hbits : i.natAbs ≤ 2 ^ 53 := by
    unfold INT_MIN at hlo
    unfold INT_MAX at hhi
    omega
  obtain ⟨m, e, h3, h4, h5⟩ := ofInt_exact i hbits
  refine ⟨.boxed s.hp, s1, h1, ?_⟩
  intro env2 fuel2 s2 hs2 hheap
  have ha : s2.heap s.hp = .float (fin (decide (i < 0)) m e) := by rw [hheap, h2, h3]
  constructor
  · exact truncateFloat_value cfg env2 fuel2 s2 s.hp _ i hs2 ha rfl
      (by rw [h5]; exact isIntegralPart_int i) hlo hhi
  · exact roundFloat_value cfg env2 fuel2 s2 s.hp _ i hs2 ha h4 rfl
      (by rw [h5]; exact isRoundHalfEven_int i) hlo hhi

/-- Witness of C10: the integer node `-3` on top of the stack. -/
theorem int_round_trip_witness :
    ∃ r s1, run boxedBuild idle 1 .__floatFromInt
        (State.init [.boxed 0] [.int (-3)]) = some (r, s1) ∧
      ∀ (env2 : Nat → (Nat → Node) → (Nat → Node)) (fuel2 : Nat) (s2 : State),
        s2.stack s2.sp = r → s2.heap = s1.heap →
        (∃ r2 s3, run boxedBuild env2 (fuel2 + 1) .__truncateFloat s2 = some (r2, s3) ∧
          int_val s3 r2 = some (-3)) ∧
        (∃ r2 s3, run boxedBuild env2 (fuel2 + 1) .__roundFloat s2 = some (r2, s3) ∧
          int_val s3 r2 = some (-3)) :=
  int_round_trip boxedBuild idle 0 (State.init [.boxed 0] [.int (-3)]) (.boxed 0) (-3) rfl
    (Or.inl ⟨0, rfl, rfl⟩) (by decide) (by decide)

/-- C5: for every integer `i` with `|i| ≤ 2^53`, `__floatFromInt` returns a fresh float node
whose payload is a finite double that denotes exactly `i`; `floatFromInt(7) = 7.0` and
`floatFromInt(-3) = -3.0`. -/
theorem floatFromInt_is_exact :
    (∀ (cfg : Config) (env : Nat → (Nat → Node) → (Nat → Node)) (fuel : Nat) (s : State)
        (x : Ref) (i : Int),
        s.stack s.sp = x →
        ((∃ a, x = .boxed a ∧ s.heap a = .int i) ∨
          (cfg.ONLY_BOXED_OBJECTS = false ∧ x = .unboxed i)) →
        -(2 ^ 53) ≤ i → i ≤ 2 ^ 53 →
        ∃ s1 d, run cfg env (fuel + 1) .__floatFromInt s = some (.boxed s.hp, s1) ∧
          s1.heap s.hp = .float d ∧ d = Double.ofInt i ∧ IsDouble d ∧ d.isFinite = true ∧
          d.toRat = (i : ℚ)) ∧
    Double.ofInt 7 = lit false 7 1 ∧ Double.ofInt (-3) = lit true 3 1 ∧
    resultFloat (run boxedBuild idle 1 .__floatFromInt (State.init [.boxed 0] [.int 7]))
      = some (lit false 7 1) ∧
    resultFloat (run unboxedBuild idle 1 .__floatFromInt (State.init [.unboxed (-3)] []))
      = some (lit true 3 1) := by
  refine ⟨?_, by decide, by decide, by decide, by decide⟩
  intro cfg env fuel s x i h0 hx hlo hhi
  obtain ⟨s1, h1, h2, _⟩ := floatFromInt_run cfg env fuel s x i h0 hx
  obtain ⟨m, e, h3, h4, h5⟩ := ofInt_exact i (by omega)
  exact ⟨s1, Double.ofInt i, h1, h2, rfl, by rw [h3]; exact h4, by rw [h3]; rfl,
    by rw [h3]; exact h5⟩

/-- Witness of C5: the integer node `7`. -/
theorem floatFromInt_is_exact_witness :
    ∃ s1 d, run boxedBuild idle 1 .__floatFromInt (State.init [.boxed 0] [.int 7])
        = some (.boxed 1, s1) ∧
      s1.heap 1 = .float d ∧ d = Double.ofInt 7 ∧ IsDouble d ∧ d.isFinite = true ∧
      d.toRat = ((7 : Int) : ℚ) :=
  floatFromInt_is_exact.1 boxedBuild idle 0 (State.init [.boxed 0] [.int 7]) (.boxed 0) 7 rfl
    (Or.inl ⟨0, rfl, rfl⟩) (by decide) (by decide)

theorem cast_int_narrowed (cfg : Config) (d : Double)
    (h : ∀ t, d.truncate? = some t → t < INT_MIN ∨ INT_MAX < t) :
    cast_int cfg d = wrapInt (cfg.narrow d) := by
  unfold cast_int
  cases ht : d.truncate? with
  | none => rfl
  | some t =>
    simp only
    have := h t ht
    rw [if_neg]
    omega

/-- C3 as amended: on every double, `__truncateFloat` and `__roundFloat` return an integer
within the range of `int`.  Its value is the integral part of `d` (respectively `d` rounded
half to even) whenever that integer lies within the range of `int`.  Otherwise, when the
double the code converts has no integral part or one outside that range, there is no
policy of the runtime: the value is what the bare conversion `(int)d` leaves on the
platform. -/
theorem conversions_in_range_or_narrowed
    (cfg : Config) (env : Nat → (Nat → Node) → (Nat → Node)) (fuel : Nat) (s : State)
    (a : Nat) (d : Double) (h0 : s.stack s.sp = .boxed a) (ha : s.heap a = .float d) :
    (∃ r s1 v, run cfg env (fuel + 1) .__truncateFloat s = some (r, s1) ∧
      int_val s1 r = some v ∧ INT_MIN ≤ v ∧ v ≤ INT_MAX ∧
      (∀ n, d.isFinite = true → IsIntegralPart d.toRat n → INT_MIN ≤ n → n ≤ INT_MAX →
        v = n) ∧
      ((∀ t, d.truncate? = some t → t < INT_MIN ∨ INT_MAX < t) →
        v = wrapInt (cfg.narrow d))) ∧
    (∃ r s1 v, run cfg env (fuel + 1) .__roundFloat s = some (r, s1) ∧
      int_val s1 r = some v ∧ INT_MIN ≤ v ∧ v ≤ INT_MAX ∧
      (∀ n, IsDouble d → d.isFinite = true → IsRoundHalfEven d.toRat n → INT_MIN ≤ n →
        n ≤ INT_MAX → v = n) ∧
      ((∀ t, (round_adjust cfg d).truncate? = some t → t < INT_MIN ∨ INT_MAX < t) →
        v = wrapInt (cfg.narrow (round_adjust cfg d)))) := by
  constructor
  · obtain ⟨r, s1, h1, h2, _, _⟩ := truncateFloat_run cfg env fuel s a d h0 ha
    refine ⟨r, s1, cast_int cfg d, h1, h2, (cast_int_range cfg d).1, (cast_int_range cfg d).2,
      ?_, cast_int_narrowed cfg d⟩
    intro n hf hn hlo hhi
    cases d with
    | nan => simp [isFinite] at hf
    | inf b => simp [isFinite] at hf
    | fin b m e => exact cast_int_integral_part cfg b m e n hn hlo hhi
  · obtain ⟨r, s1, h1, h2, _, _⟩ := roundFloat_run cfg env fuel s a d h0 ha
    refine ⟨r, s1, cast_int cfg (round_adjust cfg d), h1, h2, (cast_int_range cfg _).1,
      (cast_int_range cfg _).2, ?_, cast_int_narrowed cfg _⟩
    intro n hd hf hn hlo hhi
    cases d with
    | nan => simp [isFinite] at hf
    | inf b => simp [isFinite] at hf
    | fin b m e => exact round_adjust_value cfg b m e hd n hn hlo hhi

/-- Witness of C3 as amended: the double `2147483648.0` on the boxed build. -/
theorem conversions_in_range_or_narrowed_witness :
    (∃ r s1 v, run boxedBuild idle 1 .__truncateFloat
        (State.init [.boxed 0] [.float (fin false 4503599627370496 (-21))]) = some (r, s1) ∧
      int_val s1 r = some v ∧ INT_MIN ≤ v ∧ v ≤ INT_MAX ∧
      (∀ n, (fin false 4503599627370496 (-21)).isFinite = true →
        IsIntegralPart (fin false 4503599627370496 (-21)).toRat n → INT_MIN ≤ n →
        n ≤ INT_MAX → v = n) ∧
      ((∀ t, (fin false 4503599627370496 (-21)).truncate? = some t →
          t < INT_MIN ∨ INT_MAX < t) →
        v = wrapInt (boxedBuild.narrow (fin false 4503599627370496 (-21))))) ∧
    (∃ r s1 v, run boxedBuild idle 1 .__roundFloat
        (State.init [.boxed 0] [.float (fin false 4503599627370496 (-21))]) = some (r, s1) ∧
      int_val s1 r = some v ∧ INT_MIN ≤ v ∧ v ≤ INT_MAX ∧
      (∀ n, IsDouble (fin false 4503599627370496 (-21)) →
        (fin false 4503599627370496 (-21)).isFinite = true →
        IsRoundHalfEven (fin false 4503599627370496 (-21)).toRat n → INT_MIN ≤ n →
        n ≤ INT_MAX → v = n) ∧
      ((∀ t, (round_adjust boxedBuild (fin false 4503599627370496 (-21))).truncate? = some t →
          t < INT_MIN ∨ INT_MAX < t) →
        v = wrapInt (boxedBuild.narrow
          (round_adjust boxedBuild (fin false 4503599627370496 (-21)))))) :=
  conversions_in_range_or_narrowed boxedBuild idle 0
    (State.init [.boxed 0] [.float (fin false 4503599627370496 (-21))]) 0
    (fin false 4503599627370496 (-21)) rfl rfl

/-- Counterexample to C3 as stated: the double `2147483648.0`, whose truncation and whose
rounding are both `2147483648`.  The code has no range check: it returns an integer node,
of value `-2147483648` on a platform whose conversion yields `INT_MIN`, which is the bare
conversion `(int)d`; and no build on any platform returns `2147483648`. -/
theorem conversion_out_of_range_counterexample :
    IsDouble (fin false 4503599627370496 (-21)) ∧
    toRat (fin false 4503599627370496 (-21)) = 2147483648 ∧
    IsIntegralPart (toRat (fin false 4503599627370496 (-21))) 2147483648 ∧
    IsRoundHalfEven (toRat (fin false 4503599627370496 (-21))) 2147483648 ∧
    resultInt (run boxedBuild idle 1 .__truncateFloat
      (State.init [.boxed 0] [.float (fin false 4503599627370496 (-21))]))
      = some (-2147483648) ∧
    resultInt (run boxedBuild idle 1 .__roundFloat
      (State.init [.boxed 0] [.float (fin false 4503599627370496 (-21))]))
      = some (-2147483648) ∧
    cast_int boxedBuild (fin false 4503599627370496 (-21))
      = wrapInt (boxedBuild.narrow (fin false 4503599627370496 (-21))) ∧
    ¬ ∃ (cfg : Config) (env : Nat → (Nat → Node) → (Nat → Node)) (fuel : Nat),
      resultInt (run cfg env fuel .__truncateFloat
        (State.init [.boxed 0] [.float (fin false 4503599627370496 (-21))]))
        = some 2147483648 := by
  refine ⟨by decide, by norm_num [toRat, zpow_neg], ?_, ?_, by decide, by decide, by decide,
    ?_⟩
  · refine ⟨?_, ?_, ?_⟩
    · norm_num [toRat, zpow_neg, abs_le, le_abs]
    · norm_num [toRat, zpow_neg, abs_lt]
    · norm_num [toRat, zpow_neg]
  · exact Or.inl (by norm_num [toRat, zpow_neg])
  · rintro ⟨cfg, env, fuel, h⟩
    cases fuel with
    | zero => simp [run, resultInt] at h
    | succ fuel =>
      obtain ⟨r, s1, h1, h2, _, _⟩ := truncateFloat_run cfg env fuel
        (State.init [.boxed 0] [.float (fin false 4503599627370496 (-21))]) 0
        (fin false 4503599627370496 (-21)) rfl rfl
      rw [h1] at h
      simp only [resultInt, Option.bind] at h
      rw [h2] at h
      have hr := (cast_int_range cfg (fin false 4503599627370496 (-21))).2
      simp only [Option.some.injEq] at h
      rw [h] at hr
      exact absurd hr (by decide)

/-- C8: with a float node `x` in slot 0 and a float node `y` in slot 1, the entry point of
`-.` (of `/.`) forces `x`, exchanges the two slots and goes to its private label, which
forces `y`: the operands are forced in the order `x`, `y`; and the primitive returns a
fresh float node of payload `x - y` (of payload `x / y`).  When `x` is an unbound variable
the entry point gives control away before it looks at `y`. -/
theorem operands_in_declared_order :
    (∀ (cfg : Config) (env : Nat → (Nat → Node) → (Nat → Node)) (fuel : Nat) (s : State)
        (a b : Nat) (d e : Double),
        s.stack s.sp = .boxed a → s.stack (s.sp + 1) = .boxed b →
        s.heap a = .float d → s.heap b = .float e →
        (∃ s1, ___45__46_ s = .goto .___45__46__1 s1 ∧ s1.stack s.sp = .boxed b ∧
          s1.stack (s.sp + 1) = .boxed a ∧ s1.forced = s.forced ++ [.boxed a]) ∧
        (∃ s2, run cfg env (fuel + 2) .___45__46_ s = some (.boxed s.hp, s2) ∧
          s2.heap s.hp = .float (Double.sub d e) ∧
          s2.forced = s.forced ++ [.boxed a, .boxed b]) ∧
        (∃ s1, ___47__46_ s = .goto .___47__46__1 s1 ∧ s1.stack s.sp = .boxed b ∧
          s1.stack (s.sp + 1) = .boxed a ∧ s1.forced = s.forced ++ [.boxed a]) ∧
        (∃ s2, run cfg env (fuel + 2) .___47__46_ s = some (.boxed s.hp, s2) ∧
          s2.heap s.hp = .float (Double.div d e) ∧
          s2.forced = s.forced ++ [.boxed a, .boxed b])) ∧
    (∀ (s : State) (a : Nat), s.stack s.sp = .boxed a → s.heap a = .var →
        ___45__46_ s = .suspend .___45__46_ s ∧ ___47__46_ s = .suspend .___47__46_ s) := by
  constructor
  · intro cfg env fuel s a b d e h0 h1 ha hb
    refine ⟨?_, ?_, ?_, ?_⟩
    · obtain ⟨s1, h, _, hs0, hs1, _, _, _, hf, _⟩ :=
        binary_entry_float .___45__46_ .___45__46__1 s a b d h0 h1 ha
      exact ⟨s1, h, hs0, hs1, hf⟩
    · obtain ⟨s1, h, hv, _, _, _, _, _, hf⟩ := binary_run cfg env .___45__46_ .___45__46__1
        Double.sub rfl rfl fuel s a b d e h0 h1 ha hb
      exact ⟨s1, h, hv, hf⟩
    · obtain ⟨s1, h, _, hs0, hs1, _, _, _, hf, _⟩ :=
        binary_entry_float .___47__46_ .___47__46__1 s a b d h0 h1 ha
      exact ⟨s1, h, hs0, hs1, hf⟩
    · obtain ⟨s1, h, hv, _, _, _, _, _, hf⟩ := binary_run cfg env .___47__46_ .___47__46__1
        Double.div rfl rfl fuel s a b d e h0 h1 ha hb
      exact ⟨s1, h, hv, hf⟩
  · intro s a h0 ha
    constructor
    · unfold ___45__46_ binary_entry EVAL_RIGID_FLOAT
      rw [h0]
      simp only [ha]
    · unfold ___47__46_ binary_entry EVAL_RIGID_FLOAT
      rw [h0]
      simp only [ha]

/-- Witness of C8: `x = 5.0` in slot 0 and `y = 3.0` in slot 1; `-.` returns `2.0`, which is
`x - y` and not `y - x`. -/
theorem operands_in_declared_order_witness :
    (∃ s2, run boxedBuild idle 2 .___45__46_
        (State.init [.boxed 0, .boxed 1] [.float (lit false 5 1), .float (lit false 3 1)])
        = some (.boxed 2, s2) ∧
      s2.heap 2 = .float (Double.sub (lit false 5 1) (lit false 3 1)) ∧
      s2.forced = [] ++ [.boxed 0, .boxed 1]) ∧
    Double.sub (lit false 5 1) (lit false 3 1) = lit false 2 1 ∧
    Double.sub (lit false 3 1) (lit false 5 1) = lit true 2 1 :=
  ⟨(operands_in_declared_order.1 boxedBuild idle 0
      (State.init [.boxed 0, .boxed 1] [.float (lit false 5 1), .float (lit false 3 1)])
      0 1 (lit false 5 1) (lit false 3 1) rfl rfl rfl rfl).2.1,
    by decide, by decide⟩

end Curry
